import Mathlib

/-! Message converters of Acontext (`internal/pkg/utils/converter`)

A shallow embedding of `anthropic_converter.go` and `langchain_converter.go`.

* Go `interface{}` values are the inductive type `Any`; the converters only ever
  ask whether such a value is a `string`, a `bool`, a `map[string]interface{}`
  or the nil interface, every other dynamic type is kept apart.
* Go maps are association lists read with `List.lookup`; a nil map is `none`
  where the code distinguishes it (`part.Meta == nil`) and has no keys otherwise.
* `for ... range` loops that append to a slice are left folds with the slice as
  accumulator; a loop with an early `return` is a recursion over the list.
* `sonic.Marshal`, `sonic.Unmarshal` and `http.Get` are library calls and are
  parameters of the embedding.
-/

set_option autoImplicit false

namespace Acontext

/-! ## Data model -/

/-- A Go value of static type `interface{}`. `null` is the nil interface, `map`
is a `map[string]interface{}`, `other` stands for a value of any further dynamic
type (a struct, a channel, a typed map, ...), of which the converters can only
observe that every type assertion they make on it fails. -/
inductive Any where
  | null : Any
  | bool (b : Bool) : Any
  | num (n : Int) : Any
  | str (s : String) : Any
  | arr (items : List Any) : Any
  | map (fields : List (String × Any)) : Any
  | other (tag : Nat) : Any

/-- A Go `map[string]interface{}` that is not nil. -/
abbrev GoMap := List (String × Any)

/-- The type assertion `v.(string)` on the result of a map read. -/
def Any.asString : Any → Option String
  | .str s => some s
  | _ => none

/-- The type assertion `v.(bool)`. -/
def Any.asBool : Any → Option Bool
  | .bool b => some b
  | _ => none

/-- The type assertion `v.(map[string]interface{})`. -/
def Any.asMap : Any → Option GoMap
  | .map m => some m
  | _ => none

/-- The comparison `v != nil` of an interface value. -/
def Any.isNil : Any → Bool
  | .null => true
  | _ => false

/-- The Go expression `m[k]` in a `v, ok := m[k]` read: `none` when the key is missing. -/
def GoMap.get (m : GoMap) (k : String) : Option Any :=
  List.lookup k m

/-- The Go expression `m[k].(string)`: a missing key reads as the nil interface, for
which the assertion fails. -/
def GoMap.getString (m : GoMap) (k : String) : Option String :=
  (m.get k).bind Any.asString

/-- The Go expression `m[k].(bool)`. -/
def GoMap.getBool (m : GoMap) (k : String) : Option Bool :=
  (m.get k).bind Any.asBool

/-- The Go statement `m[k] = v`: overwrite the entry of `k`, or add one. -/
def GoMap.set : GoMap → String → Any → GoMap
  | [], k, v => [(k, v)]
  | (k', v') :: rest, k, v =>
    if k' == k then (k, v) :: rest else (k', v') :: GoMap.set rest k v

/-- Modelled from the spec: `model.Asset` (the `model` package is not among the sources);
a reference to binary content by content hash and MIME type. -/
structure Asset where
  SHA256 : String
  MIME : String

/-- Modelled from the spec: `model.Part`; the fields are the ones the converters read.
`Asset` is a pointer (`none` is nil), `Meta` is a map (`none` is the nil map). -/
structure Part where
  Type_ : String
  Text : String := ""
  Asset : Option Asset := none
  Filename : String := ""
  Meta : Option GoMap := none

/-- Modelled from the spec: `model.Message`; of its fields the converters read only
`Role` and `Parts`. -/
structure Message where
  Role : String
  Parts : List Part

/-- Modelled from the spec: `service.PublicURL`, the resolved public URL record. -/
structure PublicURL where
  URL : String

/-- The argument `publicURLs map[string]service.PublicURL`; the nil map is `[]`. -/
abbrev PublicURLs := List (String × PublicURL)

/-- The outcome of `http.Get(url)` followed by `io.ReadAll(resp.Body)`: the request
fails, or a response arrives with a status code and a body that either fails to read
(`none`) or yields bytes. -/
inductive HttpResult where
  | failed : HttpResult
  | response (status : Nat) (body : Option (List Nat)) : HttpResult

/-- The library calls the converters make. `unmarshalMap s` is
`sonic.Unmarshal(s, &m)` for `var m map[string]interface{}`: `none` is an error,
`some none` a success that leaves `m` nil (the JSON text `null`). -/
structure Deps where
  marshal : Any → Option String
  unmarshalMap : String → Option (Option GoMap)
  httpGet : String → HttpResult

/-! ## `encoding/base64`: `StdEncoding.EncodeToString` -/

/-- The alphabet of `base64.StdEncoding`. -/
def base64Alphabet : List Char :=
  "ABCDEFGHIJKLMNOPQRSTUVWXYZabcdefghijklmnopqrstuvwxyz0123456789+/".toList

/-- The character of a six-bit value. -/
def base64Char (n : Nat) : Char :=
  base64Alphabet.getD (n % 64) 'A'

/-- Three bytes become four characters, the tail is padded with `=`. -/
def base64Chars : List Nat → List Char
  | [] => []
  | [a] => [base64Char (a % 256 / 4), base64Char (a % 4 * 16), '=', '=']
  | [a, b] =>
    [base64Char (a % 256 / 4), base64Char (a % 4 * 16 + b % 256 / 16),
      base64Char (b % 16 * 4), '=']
  | a :: b :: c :: rest =>
    base64Char (a % 256 / 4) :: base64Char (a % 4 * 16 + b % 256 / 16) ::
      base64Char (b % 16 * 4 + c % 256 / 64) :: base64Char (c % 64) :: base64Chars rest

/-- The Go call `base64.StdEncoding.EncodeToString(data)`. -/
def base64Encode (data : List Nat) : String :=
  String.mk (base64Chars data)

/-! ## `anthropic_converter.go` -/

/-- The Go struct `AnthropicImageSource`. -/
structure AnthropicImageSource where
  Type_ : String
  MediaType : String
  Data : String := ""
  URL : String := ""

/-- The Go struct `AnthropicContentBlock`. `Source` is a pointer, `Input` a map and
`Content` an `interface{}` that the converter leaves nil or sets to a string. -/
structure AnthropicContentBlock where
  Type_ : String
  Text : String := ""
  Source : Option AnthropicImageSource := none
  ID : String := ""
  Name : String := ""
  Input : Option GoMap := none
  ToolUseID : String := ""
  Content : Option String := none
  IsError : Bool := false

/-- The field `Content interface{}` of `AnthropicMessage`: nil, a string, or a
`[]AnthropicContentBlock`. -/
inductive AnthropicContent where
  | absent : AnthropicContent
  | text (s : String) : AnthropicContent
  | blocks (bs : List AnthropicContentBlock) : AnthropicContent

/-- The Go struct `AnthropicMessage`. -/
structure AnthropicMessage where
  Role : String
  Content : AnthropicContent := AnthropicContent.absent

namespace AnthropicConverter

/-- Go: `convertRole`. -/
def convertRole (role : String) : String :=
  if role = "assistant" then "assistant"
  else if role = "user" ∨ role = "tool" ∨ role = "function" then "user"
  else "user"

/-- Go: `getAssetURL`. -/
def getAssetURL (asset : Option Asset) (publicURLs : PublicURLs) : String :=
  match asset with
  | none => ""
  | some a =>
    match List.lookup a.SHA256 publicURLs with
    | some pubURL => pubURL.URL
    | none => ""

/-- Go: `strings.HasPrefix`. -/
def HasPrefix (s pre : String) : Bool :=
  pre.data.isPrefixOf s.data

/-- Go: `fetchAndEncodeImage`. The media type is not used by the body. -/
def fetchAndEncodeImage (deps : Deps) (imageURL : String) (_mediaType : String) : String :=
  if !HasPrefix imageURL "http://" && !HasPrefix imageURL "https://" then ""
  else
    match deps.httpGet imageURL with
    | .failed => ""
    | .response status body =>
      if status ≠ 200 then ""
      else
        match body with
        | none => ""
        | some data => base64Encode data

/-- Go: `convertImagePart`; `none` is the nil block. -/
def convertImagePart (deps : Deps) (part : Part) (publicURLs : PublicURLs) :
    Option AnthropicContentBlock :=
  match part.Asset with
  | none => none
  | some asset =>
    let imageURL := getAssetURL part.Asset publicURLs
    if imageURL = "" then none
    else
      let mediaType := if asset.MIME = "" then "image/jpeg" else asset.MIME
      let base64Data := fetchAndEncodeImage deps imageURL mediaType
      if base64Data ≠ "" then
        some { Type_ := "image",
               Source := some { Type_ := "base64", MediaType := mediaType, Data := base64Data } }
      else
        some { Type_ := "image",
               Source := some { Type_ := "url", MediaType := mediaType, URL := imageURL } }

/-- The `http.Get` calls that `fetchAndEncodeImage` issues, as the list of requested
URLs: none when the scheme guard returns early, one otherwise. -/
def fetchAndEncodeImageRequests (imageURL : String) : List String :=
  if !HasPrefix imageURL "http://" && !HasPrefix imageURL "https://" then []
  else [imageURL]

/-- The `http.Get` calls that `convertImagePart` issues: the two early returns come
before the call of `fetchAndEncodeImage`. -/
def convertImagePartRequests (part : Part) (publicURLs : PublicURLs) : List String :=
  match part.Asset with
  | none => []
  | some _ =>
    let imageURL := getAssetURL part.Asset publicURLs
    if imageURL = "" then []
    else fetchAndEncodeImageRequests imageURL

/-- The `arguments` step of `convertToolCallPart`: the value of `block.Input`. -/
def toolCallInput (deps : Deps) (m : GoMap) : Option GoMap :=
  match (m.get "arguments").bind Any.asMap with
  | some args => some args
  | none =>
    match m.get "arguments" with
    | none => none
    | some argsRaw =>
      if argsRaw.isNil then none
      else
        match deps.marshal argsRaw with
        | none => none
        | some argsBytes =>
          match deps.unmarshalMap argsBytes with
          | none => none
          | some argsMap => argsMap

/-- Go: `convertToolCallPart`. -/
def convertToolCallPart (deps : Deps) (part : Part) : Option AnthropicContentBlock :=
  match part.Meta with
  | none => none
  | some m =>
    some { Type_ := "tool_use",
           ID := (m.getString "id").getD "",
           Name := (m.getString "tool_name").getD "",
           Input := toolCallInput deps m }

/-- The local `content` of `convertToolResultPart`, before it is made a string. -/
def toolResultRaw (part : Part) (m : GoMap) : Any :=
  match m.get "result" with
  | some result => result
  | none => if part.Text ≠ "" then Any.str part.Text else Any.map m

/-- Go: `convertToolResultPart`. -/
def convertToolResultPart (deps : Deps) (part : Part) : Option AnthropicContentBlock :=
  match part.Meta with
  | none => none
  | some m =>
    let toolUseID :=
      match m.getString "tool_call_id" with
      | some toolCallID => toolCallID
      | none =>
        match m.getString "id" with
        | some id => id
        | none => ""
    let content := toolResultRaw part m
    let blockContent :=
      match content.asString with
      | some str => some str
      | none => deps.marshal content
    some { Type_ := "tool_result",
           ToolUseID := toolUseID,
           Content := blockContent,
           IsError := (m.getBool "is_error").getD false }

/-- Append a block to the slice unless it is nil: `if b != nil { blocks = append(blocks, *b) }`. -/
def appendBlock (contentBlocks : List AnthropicContentBlock)
    (block : Option AnthropicContentBlock) : List AnthropicContentBlock :=
  match block with
  | some b => contentBlocks ++ [b]
  | none => contentBlocks

/-- One iteration of the loop of `convertParts`: the `switch part.Type`. -/
def convertPartsStep (deps : Deps) (publicURLs : PublicURLs)
    (contentBlocks : List AnthropicContentBlock) (part : Part) : List AnthropicContentBlock :=
  if part.Type_ = "text" then
    if part.Text ≠ "" then contentBlocks ++ [{ Type_ := "text", Text := part.Text }]
    else contentBlocks
  else if part.Type_ = "image" then
    appendBlock contentBlocks (convertImagePart deps part publicURLs)
  else if part.Type_ = "tool-call" then
    appendBlock contentBlocks (convertToolCallPart deps part)
  else if part.Type_ = "tool-result" then
    appendBlock contentBlocks (convertToolResultPart deps part)
  else if part.Type_ = "audio" ∨ part.Type_ = "video" ∨ part.Type_ = "file" then
    let assetURL := getAssetURL part.Asset publicURLs
    let text :=
      if assetURL ≠ "" then part.Text ++ "\n[" ++ part.Type_ ++ ": " ++ assetURL ++ "]"
      else part.Text
    if text ≠ "" then contentBlocks ++ [{ Type_ := "text", Text := text }]
    else contentBlocks
  else
    if part.Text ≠ "" then contentBlocks ++ [{ Type_ := "text", Text := part.Text }]
    else contentBlocks

/-- The loop of `convertParts`: the slice `contentBlocks` after all parts. -/
def buildBlocks (deps : Deps) (parts : List Part) (publicURLs : PublicURLs) :
    List AnthropicContentBlock :=
  List.foldl (convertPartsStep deps publicURLs) [] parts

/-- The end of `convertParts`: a slice of exactly one `text` block is returned as its
string, any other slice as it is. -/
def collapseBlocks (contentBlocks : List AnthropicContentBlock) : AnthropicContent :=
  match contentBlocks with
  | [b] =>
    if b.Type_ = "text" then AnthropicContent.text b.Text
    else AnthropicContent.blocks contentBlocks
  | _ => AnthropicContent.blocks contentBlocks

/-- Go: `convertParts`. -/
def convertParts (deps : Deps) (parts : List Part) (publicURLs : PublicURLs) :
    AnthropicContent :=
  match parts with
  | [p] =>
    if p.Type_ = "text" then AnthropicContent.text p.Text
    else collapseBlocks (buildBlocks deps parts publicURLs)
  | _ => collapseBlocks (buildBlocks deps parts publicURLs)

/-- The messages that the loop of `Convert` does not skip. -/
def notSystem (msg : Message) : Bool :=
  decide (msg.Role ≠ "system")

/-- The body of the loop of `Convert` for one message that is not skipped. -/
def convertMessage (deps : Deps) (publicURLs : PublicURLs) (msg : Message) : AnthropicMessage :=
  let anthropicMsg : AnthropicMessage := { Role := convertRole msg.Role }
  if msg.Parts.length > 0 then
    { anthropicMsg with Content := convertParts deps msg.Parts publicURLs }
  else anthropicMsg

/-- One iteration of the loop of `Convert`: a `system` message is skipped (`continue`). -/
def convertStep (deps : Deps) (publicURLs : PublicURLs)
    (result : List AnthropicMessage) (msg : Message) : List AnthropicMessage :=
  if msg.Role = "system" then result
  else result ++ [convertMessage deps publicURLs msg]

/-- Go: `Convert`. The returned error is always nil, `Except.ok` carries the payload. -/
def Convert (deps : Deps) (messages : List Message) (publicURLs : PublicURLs) :
    Except String (List AnthropicMessage) :=
  Except.ok (List.foldl (convertStep deps publicURLs) [] messages)

end AnthropicConverter

/-! ## `langchain_converter.go` -/

/-- The struct `llms.FunctionCall` of langchaingo. -/
structure FunctionCall where
  Name : String
  Arguments : String := ""

/-- The struct `llms.ToolCall` of langchaingo; `FunctionCall` is a pointer. The
converter never sets `Type`. -/
structure ToolCall where
  ID : String := ""
  Type_ : String := ""
  FunctionCall : Option FunctionCall := none

/-- The interface `llms.ChatMessage` with the five message structs the converter builds:
`HumanChatMessage`, `AIChatMessage`, `SystemChatMessage`, `ToolChatMessage` and
`GenericChatMessage`, with the fields the converter sets. -/
inductive ChatMessage where
  | Human (Content : String) : ChatMessage
  | AI (Content : String) (ToolCalls : List ToolCall) : ChatMessage
  | System (Content : String) : ChatMessage
  | Tool (ID : String) (Content : String) : ChatMessage
  | Generic (Content : String) (Role : String) : ChatMessage

/-- The method `GetContent` of `llms.ChatMessage`. -/
def ChatMessage.GetContent : ChatMessage → String
  | .Human c => c
  | .AI c _ => c
  | .System c => c
  | .Tool _ c => c
  | .Generic c _ => c

/-- A map-typed field stored into an `interface{}` slot (`partMap["meta"] = part.Meta`);
a nil map is rendered like the nil interface. -/
def metaValue : Option GoMap → Any
  | some m => Any.map m
  | none => Any.null

namespace LangChainConverter

/-- The body of the loop of `extractContent`: the map built for one part. -/
def partMap (publicURLs : PublicURLs) (part : Part) : GoMap :=
  let partMap : GoMap := [("type", Any.str part.Type_)]
  if part.Type_ = "text" then
    partMap.set "text" (Any.str part.Text)
  else if part.Type_ = "image" ∨ part.Type_ = "audio" ∨ part.Type_ = "video" ∨
      part.Type_ = "file" then
    let partMap :=
      match part.Asset with
      | some asset =>
        let partMap :=
          match List.lookup asset.SHA256 publicURLs with
          | some pubURL => partMap.set "url" (Any.str pubURL.URL)
          | none => partMap
        (partMap.set "filename" (Any.str part.Filename)).set "mime" (Any.str asset.MIME)
      | none => partMap
    if part.Text ≠ "" then partMap.set "text" (Any.str part.Text) else partMap
  else if part.Type_ = "tool-call" ∨ part.Type_ = "tool-result" ∨ part.Type_ = "data" then
    let partMap := partMap.set "meta" (metaValue part.Meta)
    if part.Text ≠ "" then partMap.set "text" (Any.str part.Text) else partMap
  else partMap

/-- The loop of `extractContent`: the slice `contentParts` after all parts. -/
def contentParts (parts : List Part) (publicURLs : PublicURLs) : List GoMap :=
  List.foldl (fun contentParts part => contentParts ++ [partMap publicURLs part]) [] parts

/-- Go: `extractContent`. -/
def extractContent (marshal : Any → Option String) (parts : List Part)
    (publicURLs : PublicURLs) : String :=
  match parts with
  | [] => ""
  | [p] =>
    if p.Type_ = "text" then p.Text
    else
      match marshal (Any.arr ((contentParts parts publicURLs).map Any.map)) with
      | some jsonBytes => jsonBytes
      | none => ""
  | _ =>
    match marshal (Any.arr ((contentParts parts publicURLs).map Any.map)) with
    | some jsonBytes => jsonBytes
    | none => ""

/-- The record that the loop body of `extractToolCalls` builds from a meta map, from
`toolCall := llms.ToolCall{}` up to the `append`. -/
def buildToolCall (marshal : Any → Option String) (m : GoMap) : ToolCall :=
  let toolCall : ToolCall := {}
  let toolCall :=
    match m.getString "id" with
    | some id => { toolCall with ID := id }
    | none => toolCall
  let toolCall :=
    match m.getString "tool_name" with
    | some toolName => { toolCall with FunctionCall := some { Name := toolName } }
    | none => toolCall
  match m.get "arguments" with
  | some args =>
    match marshal args with
    | some argsBytes =>
      match toolCall.FunctionCall with
      | some fc => { toolCall with FunctionCall := some { fc with Arguments := argsBytes } }
      | none => toolCall
    | none => toolCall
  | none => toolCall

/-- One iteration of the loop of `extractToolCalls`: the guard
`part.Type == "tool-call" && part.Meta != nil` and the `append`. -/
def extractToolCallsStep (marshal : Any → Option String) (toolCalls : List ToolCall)
    (part : Part) : List ToolCall :=
  if part.Type_ = "tool-call" then
    match part.Meta with
    | none => toolCalls
    | some m => toolCalls ++ [buildToolCall marshal m]
  else toolCalls

/-- Go: `extractToolCalls`. -/
def extractToolCalls (marshal : Any → Option String) (parts : List Part) : List ToolCall :=
  List.foldl (extractToolCallsStep marshal) [] parts

/-- Go: `extractToolCallID`; the loop returns at the first part that qualifies. -/
def extractToolCallID : List Part → String
  | [] => ""
  | part :: rest =>
    if part.Type_ = "tool-result" then
      match part.Meta with
      | some m =>
        match m.getString "tool_call_id" with
        | some toolCallID => toolCallID
        | none => extractToolCallID rest
      | none => extractToolCallID rest
    else extractToolCallID rest

/-- The body of the loop of `Convert`: the `switch msg.Role`. -/
def convertMessage (marshal : Any → Option String) (publicURLs : PublicURLs)
    (msg : Message) : ChatMessage :=
  let content := extractContent marshal msg.Parts publicURLs
  if msg.Role = "user" then ChatMessage.Human content
  else if msg.Role = "assistant" then
    ChatMessage.AI content (extractToolCalls marshal msg.Parts)
  else if msg.Role = "function" then ChatMessage.AI content []
  else if msg.Role = "system" then ChatMessage.System content
  else if msg.Role = "tool" then ChatMessage.Tool (extractToolCallID msg.Parts) content
  else ChatMessage.Generic content msg.Role

/-- Go: `Convert`. The returned error is always nil. -/
def Convert (marshal : Any → Option String) (messages : List Message)
    (publicURLs : PublicURLs) : Except String (List ChatMessage) :=
  Except.ok (List.foldl (fun result msg => result ++ [convertMessage marshal publicURLs msg])
    [] messages)

end LangChainConverter

/-! ## Vocabulary of the statements -/

/-- The tool calls carried by a chat message: the field `ToolCalls` of an
`AIChatMessage`, none for the other structs. -/
def ChatMessage.toolCalls : ChatMessage → List ToolCall
  | .AI _ tcs => tcs
  | _ => []

/-- The record, if any, that a part contributes to `extractToolCalls`. -/
def toolCallOf (marshal : Any → Option String) (part : Part) : Option ToolCall :=
  if part.Type_ = "tool-call" then part.Meta.map (LangChainConverter.buildToolCall marshal)
  else none

/-- A part of type `tool-result` whose meta map holds the string `id` under the key
`tool_call_id`. -/
def hasToolCallID (part : Part) (id : String) : Prop :=
  part.Type_ = "tool-result" ∧ ∃ m, part.Meta = some m ∧ m.getString "tool_call_id" = some id

/-- A URL on which `fetchAndEncodeImage` passes its scheme guard. -/
def hasHTTPScheme (url : String) : Bool :=
  AnthropicConverter.HasPrefix url "http://" || AnthropicConverter.HasPrefix url "https://"

/-- A block with the `Source` field blanked when the block is an `image` block. -/
def AnthropicContentBlock.withoutImageSource (b : AnthropicContentBlock) :
    AnthropicContentBlock :=
  if b.Type_ = "image" then { b with Source := none } else b

/-- A message content with the `Source` of every `image` block blanked. -/
def AnthropicContent.withoutImageSources : AnthropicContent → AnthropicContent
  | .absent => .absent
  | .text s => .text s
  | .blocks bs => .blocks (bs.map AnthropicContentBlock.withoutImageSource)

/-- A message with the `Source` of every `image` block blanked. -/
def AnthropicMessage.withoutImageSources (m : AnthropicMessage) : AnthropicMessage :=
  { m with Content := m.Content.withoutImageSources }

/-- The string of a content that is a bare string. -/
def AnthropicContent.asText : AnthropicContent → Option String
  | .text s => some s
  | _ => none

/-- The block types, in order, of a content that is a block array. -/
def AnthropicContent.blockTypes : AnthropicContent → Option (List String)
  | .blocks bs => some (bs.map (fun b => b.Type_))
  | _ => none

/-! ## Sample library behaviour

Concrete instances of the library parameters, used to evaluate the converters on
concrete inputs. -/

mutual
/-- A reference JSON encoder for values whose strings need no escaping; values of
other dynamic types are reported as unsupported, as `sonic.Marshal` does for channels
and functions. -/
def sampleMarshal : Any → Option String
  | .null => some "null"
  | .bool b => some (if b then "true" else "false")
  | .num n => some (toString n)
  | .str s => some ("\"" ++ s ++ "\"")
  | .arr items => (sampleMarshalItems items).map (fun t => "[" ++ t ++ "]")
  | .map fields => (sampleMarshalFields fields).map (fun t => "\x7b" ++ t ++ "\x7d")
  | .other _ => none
/-- The elements of an array, separated by commas. -/
def sampleMarshalItems : List Any → Option String
  | [] => some ""
  | [v] => sampleMarshal v
  | v :: rest =>
    match sampleMarshal v, sampleMarshalItems rest with
    | some a, some b => some (a ++ "," ++ b)
    | _, _ => none
/-- The entries of an object, separated by commas. -/
def sampleMarshalFields : List (String × Any) → Option String
  | [] => some ""
  | [(k, v)] => (sampleMarshal v).map (fun t => "\"" ++ k ++ "\":" ++ t)
  | (k, v) :: rest =>
    match sampleMarshal v, sampleMarshalFields rest with
    | some a, some b => some ("\"" ++ k ++ "\":" ++ a ++ "," ++ b)
    | _, _ => none
end

/-- Sample library calls: the reference encoder, a decoder that rejects every text and
a network on which every request fails. -/
def sampleDeps : Deps :=
  { marshal := sampleMarshal, unmarshalMap := fun _ => none,
    httpGet := fun _ => HttpResult.failed }

/-- Sample library calls on a network that answers every request with status 200 and
the given body. -/
def sampleDepsServing (body : List Nat) : Deps :=
  { marshal := sampleMarshal, unmarshalMap := fun _ => none,
    httpGet := fun _ => HttpResult.response 200 (some body) }

/-! ## Shared lemmas -/

/-- A loop that appends one element per iteration builds the image of the list. -/
theorem foldl_append_singleton {α β : Type} (f : α → β) (xs : List α) (acc : List β) :
    List.foldl (fun r x => r ++ [f x]) acc xs = acc ++ xs.map f := by
  induction xs generalizing acc with
  | nil => simp
  | cons x xs ih => simp [ih]

/-- Reading the key that was just written gives the written value. -/
theorem GoMap_get_set_self (m : GoMap) (k : String) (v : Any) : (m.set k v).get k = some v := by
  induction m with
  | nil => simp [GoMap.set, GoMap.get, List.lookup]
  | cons e rest ih =>
    obtain ⟨k1, v1⟩ := e
    unfold GoMap.set
    by_cases h : k1 = k
    · simp [h, GoMap.get, List.lookup]
    · have hne : ¬ k = k1 := fun e => h e.symm
      simp only [beq_iff_eq, h, if_false]
      simp only [GoMap.get, List.lookup, beq_eq_false_iff_ne.mpr hne]
      exact ih

/-- Writing a key leaves the reads of every other key unchanged. -/
theorem GoMap_get_set_ne (m : GoMap) (k k2 : String) (v : Any) (hne : k ≠ k2) :
    (m.set k v).get k2 = m.get k2 := by
  induction m with
  | nil =>
    have hne2 : ¬ k2 = k := fun e => hne e.symm
    simp [GoMap.set, GoMap.get, List.lookup, beq_eq_false_iff_ne.mpr hne2]
  | cons e rest ih =>
    obtain ⟨k1, v1⟩ := e
    unfold GoMap.set
    by_cases h : k1 = k
    · subst h
      have hne2 : ¬ k2 = k1 := fun e => hne e.symm
      simp [GoMap.get, List.lookup, beq_eq_false_iff_ne.mpr hne2]
    · simp only [beq_iff_eq, h, if_false]
      simp only [GoMap.get, List.lookup]
      simp only [GoMap.get] at ih
      rw [ih]

/-- Only the empty byte sequence has an empty base64 text. -/
theorem base64Encode_ne_empty (data : List Nat) (hdata : data ≠ []) :
    base64Encode data ≠ "" := by
  intro h
  have hchars : base64Chars data = [] := by
    have := congrArg String.data h
    simpa [base64Encode] using this
  match data, hdata, hchars with
  | [_], _, hc => simp [base64Chars] at hc
  | [_, _], _, hc => simp [base64Chars] at hc
  | _ :: _ :: _ :: _, _, hc => simp [base64Chars] at hc

namespace AnthropicConverter

theorem foldl_convertStep (deps : Deps) (publicURLs : PublicURLs) (messages : List Message)
    (acc : List AnthropicMessage) :
    List.foldl (convertStep deps publicURLs) acc messages =
      acc ++ (messages.filter notSystem).map (convertMessage deps publicURLs) := by
  induction messages generalizing acc with
  | nil => simp
  | cons msg rest ih =>
    by_cases h : msg.Role = "system"
    · simp [List.foldl_cons, convertStep, h, ih, notSystem]
    · simp [List.foldl_cons, convertStep, h, ih, notSystem]

theorem convertPartsStep_append (deps : Deps) (publicURLs : PublicURLs)
    (acc : List AnthropicContentBlock) (p : Part) :
    convertPartsStep deps publicURLs acc p = acc ++ convertPartsStep deps publicURLs [] p := by
  unfold convertPartsStep appendBlock
  simp only []
  split_ifs <;> (try split) <;> simp

theorem foldl_convertPartsStep (deps : Deps) (publicURLs : PublicURLs) (parts : List Part)
    (acc : List AnthropicContentBlock) :
    List.foldl (convertPartsStep deps publicURLs) acc parts =
      acc ++ parts.flatMap (convertPartsStep deps publicURLs []) := by
  induction parts generalizing acc with
  | nil => simp
  | cons p rest ih =>
    rw [List.foldl_cons, ih, convertPartsStep_append deps publicURLs acc p]
    simp [List.flatMap_cons]

theorem buildBlocks_eq (deps : Deps) (parts : List Part) (publicURLs : PublicURLs) :
    buildBlocks deps parts publicURLs = parts.flatMap (convertPartsStep deps publicURLs []) := by
  simp [buildBlocks, foldl_convertPartsStep]

theorem buildBlocks_append (deps : Deps) (xs ys : List Part) (publicURLs : PublicURLs) :
    buildBlocks deps (xs ++ ys) publicURLs =
      buildBlocks deps xs publicURLs ++ buildBlocks deps ys publicURLs := by
  simp [buildBlocks_eq, List.flatMap_append]

theorem buildBlocks_cons (deps : Deps) (p : Part) (rest : List Part) (publicURLs : PublicURLs) :
    buildBlocks deps (p :: rest) publicURLs =
      convertPartsStep deps publicURLs [] p ++ buildBlocks deps rest publicURLs := by
  simp [buildBlocks_eq, List.flatMap_cons]

theorem getAssetURL_resolved (a : Asset) (publicURLs : PublicURLs) (pubURL : PublicURL)
    (hlookup : List.lookup a.SHA256 publicURLs = some pubURL) :
    getAssetURL (some a) publicURLs = pubURL.URL := by
  simp [getAssetURL, hlookup]

theorem getAssetURL_unresolved (asset : Option Asset) (publicURLs : PublicURLs)
    (hun : asset = none ∨ ∃ a, asset = some a ∧ List.lookup a.SHA256 publicURLs = none) :
    getAssetURL asset publicURLs = "" := by
  rcases hun with rfl | ⟨a, rfl, hl⟩
  · rfl
  · simp [getAssetURL, hl]

theorem convertImagePart_unresolved (deps : Deps) (p : Part) (publicURLs : PublicURLs)
    (hurl : getAssetURL p.Asset publicURLs = "") :
    convertImagePart deps p publicURLs = none := by
  unfold convertImagePart
  cases hasset : p.Asset with
  | none => rfl
  | some a =>
    rw [hasset] at hurl
    simp [hurl]

theorem fetchAndEncodeImage_success (deps : Deps) (url mediaType : String) (data : List Nat)
    (hscheme : hasHTTPScheme url = true)
    (hget : deps.httpGet url = HttpResult.response 200 (some data)) :
    fetchAndEncodeImage deps url mediaType = base64Encode data := by
  have hguard : (!HasPrefix url "http://" && !HasPrefix url "https://") = false := by
    simp only [hasHTTPScheme, Bool.or_eq_true] at hscheme
    rcases hscheme with h | h <;> simp [h]
  simp [fetchAndEncodeImage, hguard, hget]

theorem fetchAndEncodeImage_nonempty (deps : Deps) (url mediaType : String)
    (hfetch : fetchAndEncodeImage deps url mediaType ≠ "") :
    hasHTTPScheme url = true ∧
      ∃ data, deps.httpGet url = HttpResult.response 200 (some data) ∧ data ≠ [] := by
  unfold fetchAndEncodeImage at hfetch
  by_cases hguard : (!HasPrefix url "http://" && !HasPrefix url "https://") = true
  · simp [hguard] at hfetch
  · have hscheme : hasHTTPScheme url = true := by
      simp only [Bool.and_eq_true, Bool.not_eq_true', not_and, Bool.not_eq_false] at hguard
      unfold hasHTTPScheme
      cases h1 : HasPrefix url "http://"
      · simp [hguard h1]
      · simp
    refine ⟨hscheme, ?_⟩
    simp only [hguard, if_false] at hfetch
    cases hget : deps.httpGet url with
    | failed => simp [hget] at hfetch
    | response status body =>
      simp only [hget] at hfetch
      by_cases hstatus : status = 200
      · subst hstatus
        cases body with
        | none => simp at hfetch
        | some data =>
          refine ⟨data, rfl, ?_⟩
          rintro rfl
          simp [base64Encode, base64Chars] at hfetch
      · simp [hstatus] at hfetch

theorem convertParts_eq_collapse (deps : Deps) (parts : List Part) (publicURLs : PublicURLs)
    (hslow : ∀ p, parts = [p] → p.Type_ ≠ "text") :
    convertParts deps parts publicURLs = collapseBlocks (buildBlocks deps parts publicURLs) := by
  unfold convertParts
  split
  · rename_i p
    simp [hslow p rfl]
  · rfl

theorem withoutImageSource_Type (b : AnthropicContentBlock) :
    b.withoutImageSource.Type_ = b.Type_ := by
  unfold AnthropicContentBlock.withoutImageSource
  split <;> rfl

theorem withoutImageSource_Text (b : AnthropicContentBlock) :
    b.withoutImageSource.Text = b.Text := by
  unfold AnthropicContentBlock.withoutImageSource
  split <;> rfl

theorem collapseBlocks_withoutImageSources (bs : List AnthropicContentBlock) :
    (collapseBlocks bs).withoutImageSources =
      collapseBlocks (bs.map AnthropicContentBlock.withoutImageSource) := by
  match bs with
  | [] => rfl
  | [b] =>
    by_cases h : b.Type_ = "text"
    · simp [collapseBlocks, h, withoutImageSource_Type, withoutImageSource_Text,
        AnthropicContent.withoutImageSources]
    · simp [collapseBlocks, h, withoutImageSource_Type, AnthropicContent.withoutImageSources]
  | _ :: _ :: _ => simp [collapseBlocks, AnthropicContent.withoutImageSources]

theorem convertImagePart_withoutImageSource (d1 d2 : Deps) (p : Part)
    (publicURLs : PublicURLs) :
    (convertImagePart d1 p publicURLs).map AnthropicContentBlock.withoutImageSource =
      (convertImagePart d2 p publicURLs).map AnthropicContentBlock.withoutImageSource := by
  unfold convertImagePart
  cases p.Asset with
  | none => rfl
  | some a =>
    simp only []
    split_ifs <;> simp [AnthropicContentBlock.withoutImageSource]

theorem convertPartsStep_withoutImageSource (d1 d2 : Deps) (publicURLs : PublicURLs) (p : Part)
    (hmarshal : d1.marshal = d2.marshal) (hunmarshal : d1.unmarshalMap = d2.unmarshalMap) :
    (convertPartsStep d1 publicURLs [] p).map AnthropicContentBlock.withoutImageSource =
      (convertPartsStep d2 publicURLs [] p).map AnthropicContentBlock.withoutImageSource := by
  have hcall : convertToolCallPart d1 p = convertToolCallPart d2 p := by
    simp [convertToolCallPart, toolCallInput, hmarshal, hunmarshal]
  have hresult : convertToolResultPart d1 p = convertToolResultPart d2 p := by
    simp [convertToolResultPart, hmarshal]
  have himage := convertImagePart_withoutImageSource d1 d2 p publicURLs
  unfold convertPartsStep
  simp only [hcall, hresult]
  split_ifs
  all_goals first
    | rfl
    | (simp only [appendBlock]
       cases h1 : convertImagePart d1 p publicURLs <;>
         cases h2 : convertImagePart d2 p publicURLs <;>
           simp_all)

theorem buildBlocks_withoutImageSource (d1 d2 : Deps) (parts : List Part)
    (publicURLs : PublicURLs)
    (hmarshal : d1.marshal = d2.marshal) (hunmarshal : d1.unmarshalMap = d2.unmarshalMap) :
    (buildBlocks d1 parts publicURLs).map AnthropicContentBlock.withoutImageSource =
      (buildBlocks d2 parts publicURLs).map AnthropicContentBlock.withoutImageSource := by
  induction parts with
  | nil => rfl
  | cons p rest ih =>
    rw [buildBlocks_cons, buildBlocks_cons, List.map_append, List.map_append, ih,
      convertPartsStep_withoutImageSource d1 d2 publicURLs p hmarshal hunmarshal]

theorem convertParts_withoutImageSources (d1 d2 : Deps) (parts : List Part)
    (publicURLs : PublicURLs)
    (hmarshal : d1.marshal = d2.marshal) (hunmarshal : d1.unmarshalMap = d2.unmarshalMap) :
    (convertParts d1 parts publicURLs).withoutImageSources =
      (convertParts d2 parts publicURLs).withoutImageSources := by
  by_cases hfast : ∃ p, parts = [p] ∧ p.Type_ = "text"
  · obtain ⟨p, rfl, htype⟩ := hfast
    simp [convertParts, htype]
  · have hslow : ∀ p, parts = [p] → p.Type_ ≠ "text" := fun p hp ht => hfast ⟨p, hp, ht⟩
    rw [convertParts_eq_collapse d1 parts publicURLs hslow,
      convertParts_eq_collapse d2 parts publicURLs hslow,
      collapseBlocks_withoutImageSources, collapseBlocks_withoutImageSources,
      buildBlocks_withoutImageSource d1 d2 parts publicURLs hmarshal hunmarshal]

theorem convertMessage_withoutImageSources (d1 d2 : Deps) (publicURLs : PublicURLs)
    (msg : Message)
    (hmarshal : d1.marshal = d2.marshal) (hunmarshal : d1.unmarshalMap = d2.unmarshalMap) :
    (convertMessage d1 publicURLs msg).withoutImageSources =
      (convertMessage d2 publicURLs msg).withoutImageSources := by
  unfold convertMessage
  by_cases h : msg.Parts.length > 0
  · simp only [h, if_true, AnthropicMessage.withoutImageSources]
    rw [convertParts_withoutImageSources d1 d2 msg.Parts publicURLs hmarshal hunmarshal]
  · simp only [h, if_false]

theorem convertPartsStep_length_le (deps : Deps) (publicURLs : PublicURLs) (p : Part) :
    (convertPartsStep deps publicURLs [] p).length ≤ 1 := by
  unfold convertPartsStep appendBlock
  simp only []
  split_ifs <;> (try split) <;> simp

theorem flatMap_eq_filterMap_head {α β : Type} (f : α → List β)
    (hf : ∀ x, (f x).length ≤ 1) (xs : List α) :
    xs.flatMap f = xs.filterMap (fun x => (f x).head?) := by
  induction xs with
  | nil => rfl
  | cons x rest ih =>
    rw [List.flatMap_cons, ih]
    have hx := hf x
    match hfx : f x with
    | [] => simp [List.filterMap_cons, hfx]
    | [b] => simp [List.filterMap_cons, hfx]
    | _ :: _ :: _ =>
      rw [hfx] at hx
      simp at hx

theorem buildBlocks_length_le (deps : Deps) (parts : List Part) (publicURLs : PublicURLs) :
    (buildBlocks deps parts publicURLs).length ≤ parts.length := by
  rw [buildBlocks_eq,
    flatMap_eq_filterMap_head _ (convertPartsStep_length_le deps publicURLs) parts]
  exact List.length_filterMap_le _ parts

theorem collapseBlocks_ne_absent (bs : List AnthropicContentBlock) :
    (∃ s, collapseBlocks bs = AnthropicContent.text s) ∨
      (∃ cs, collapseBlocks bs = AnthropicContent.blocks cs) := by
  unfold collapseBlocks
  split
  · split_ifs
    · exact Or.inl ⟨_, rfl⟩
    · exact Or.inr ⟨_, rfl⟩
  · exact Or.inr ⟨_, rfl⟩

theorem convertParts_ne_absent (deps : Deps) (parts : List Part) (publicURLs : PublicURLs) :
    (∃ s, convertParts deps parts publicURLs = AnthropicContent.text s) ∨
      (∃ cs, convertParts deps parts publicURLs = AnthropicContent.blocks cs) := by
  unfold convertParts
  split
  · split_ifs
    · exact Or.inl ⟨_, rfl⟩
    · exact collapseBlocks_ne_absent _
  · exact collapseBlocks_ne_absent _

theorem anthropic_Convert_eq (deps : Deps) (messages : List Message) (publicURLs : PublicURLs) :
    Convert deps messages publicURLs =
      Except.ok ((messages.filter notSystem).map (convertMessage deps publicURLs)) := by
  simp [Convert, foldl_convertStep]

end AnthropicConverter

namespace LangChainConverter

theorem langchain_Convert_eq (marshal : Any → Option String) (messages : List Message)
    (publicURLs : PublicURLs) :
    Convert marshal messages publicURLs =
      Except.ok (messages.map (convertMessage marshal publicURLs)) := by
  simp [Convert, foldl_append_singleton]

theorem contentParts_eq (parts : List Part) (publicURLs : PublicURLs) :
    contentParts parts publicURLs = parts.map (partMap publicURLs) := by
  simp [contentParts, foldl_append_singleton]

theorem foldl_extractToolCallsStep (marshal : Any → Option String) (parts : List Part)
    (acc : List ToolCall) :
    List.foldl (extractToolCallsStep marshal) acc parts =
      acc ++ parts.filterMap (toolCallOf marshal) := by
  induction parts generalizing acc with
  | nil => simp
  | cons part rest ih =>
    rw [List.foldl_cons, ih]
    unfold extractToolCallsStep toolCallOf
    by_cases h : part.Type_ = "tool-call"
    · cases hm : part.Meta <;> simp [List.filterMap_cons, h, hm]
    · simp [List.filterMap_cons, h]

theorem extractToolCalls_eq (marshal : Any → Option String) (parts : List Part) :
    extractToolCalls marshal parts = parts.filterMap (toolCallOf marshal) := by
  simp [extractToolCalls, foldl_extractToolCallsStep]

theorem extractToolCalls_append (marshal : Any → Option String) (xs ys : List Part) :
    extractToolCalls marshal (xs ++ ys) =
      extractToolCalls marshal xs ++ extractToolCalls marshal ys := by
  simp [extractToolCalls_eq, List.filterMap_append]

theorem extractToolCalls_cons_toolCall (marshal : Any → Option String) (p : Part)
    (rest : List Part) (m : GoMap) (htype : p.Type_ = "tool-call") (hmeta : p.Meta = some m) :
    extractToolCalls marshal (p :: rest) =
      buildToolCall marshal m :: extractToolCalls marshal rest := by
  simp [extractToolCalls_eq, List.filterMap_cons, toolCallOf, htype, hmeta]

theorem buildToolCall_ID (marshal : Any → Option String) (m : GoMap) :
    (buildToolCall marshal m).ID = (m.getString "id").getD "" := by
  unfold buildToolCall
  cases m.getString "id" <;> cases m.getString "tool_name" <;> cases m.get "arguments" <;>
    simp <;> (rename_i a; cases marshal a <;> simp)

theorem buildToolCall_Name (marshal : Any → Option String) (m : GoMap) :
    (buildToolCall marshal m).FunctionCall.map (fun fc => fc.Name) =
      m.getString "tool_name" := by
  unfold buildToolCall
  cases m.getString "id" <;> cases m.getString "tool_name" <;> cases m.get "arguments" <;>
    simp <;> (rename_i a; cases marshal a <;> simp)

theorem extractToolCallID_skip (before rest : List Part)
    (hskip : ∀ q ∈ before, ∀ j, ¬ hasToolCallID q j) :
    extractToolCallID (before ++ rest) = extractToolCallID rest := by
  induction before with
  | nil => rfl
  | cons q qs ih =>
    have hq : ∀ j, ¬ hasToolCallID q j := hskip q (List.mem_cons_self q qs)
    have hqs : extractToolCallID (qs ++ rest) = extractToolCallID rest :=
      ih (fun r hr => hskip r (List.mem_cons_of_mem q hr))
    rw [List.cons_append, extractToolCallID]
    by_cases ht : q.Type_ = "tool-result"
    · cases hm : q.Meta with
      | none => simp [ht, hqs]
      | some m =>
        cases hid : m.getString "tool_call_id" with
        | none => simp [ht, hqs, hid]
        | some id => exact absurd ⟨ht, m, hm, hid⟩ (hq id)
    · simp [ht, hqs]

theorem extractToolCallID_hit (p : Part) (rest : List Part) (id : String)
    (hp : hasToolCallID p id) : extractToolCallID (p :: rest) = id := by
  obtain ⟨ht, m, hm, hid⟩ := hp
  simp [extractToolCallID, ht, hm, hid]

theorem partMap_type (publicURLs : PublicURLs) (p : Part) :
    (partMap publicURLs p).get "type" = some (Any.str p.Type_) := by
  have h0 : GoMap.get [("type", Any.str p.Type_)] "type" = some (Any.str p.Type_) := by
    simp [GoMap.get, List.lookup]
  unfold partMap
  simp only []
  split_ifs <;> (try split) <;> (try split) <;>
    simp [GoMap_get_set_ne, h0]

theorem partMap_asset (publicURLs : PublicURLs) (p : Part) (a : Asset)
    (htype : p.Type_ = "image" ∨ p.Type_ = "audio" ∨ p.Type_ = "video" ∨ p.Type_ = "file")
    (hasset : p.Asset = some a) :
    (partMap publicURLs p).get "filename" = some (Any.str p.Filename) ∧
    (partMap publicURLs p).get "mime" = some (Any.str a.MIME) ∧
    (partMap publicURLs p).get "url" =
      (List.lookup a.SHA256 publicURLs).map (fun pubURL => Any.str pubURL.URL) := by
  have hnt : p.Type_ ≠ "text" := by
    rcases htype with h | h | h | h <;> rw [h] <;> decide
  have h0 : ∀ k : String, k ≠ "type" → GoMap.get [("type", Any.str p.Type_)] k = none := by
    intro k hk
    simp [GoMap.get, List.lookup, beq_eq_false_iff_ne.mpr hk]
  unfold partMap
  simp only [hnt, htype, hasset, if_true, if_false]
  cases hl : List.lookup a.SHA256 publicURLs <;> by_cases ht : p.Text = "" <;>
    simp [ht, GoMap_get_set_ne, GoMap_get_set_self, h0]

theorem extractContent_multi (marshal : Any → Option String) (parts : List Part)
    (publicURLs : PublicURLs) (hne : parts ≠ [])
    (hmulti : ∀ p, parts = [p] → p.Type_ ≠ "text") :
    extractContent marshal parts publicURLs =
      (marshal (Any.arr ((contentParts parts publicURLs).map Any.map))).getD "" := by
  unfold extractContent
  match parts, hne, hmulti with
  | [p], _, hmulti =>
    simp only [hmulti p rfl, if_false]
    cases marshal (Any.arr ((contentParts [p] publicURLs).map Any.map)) <;> rfl
  | p :: q :: rest, _, _ =>
    simp only []
    cases marshal (Any.arr ((contentParts (p :: q :: rest) publicURLs).map Any.map)) <;> rfl

end LangChainConverter

/-! ## Claims -/

/-- C1: `AnthropicConverter.Convert` returns (with a nil error) the conversions of the
messages whose role is not `system`, in input order; the output has as many elements as
the input minus the number of `system` messages, and its i-th element is the conversion
of the i-th non-system message. -/
theorem C1_anthropic_convert_drops_system (deps : Deps) (messages : List Message)
    (publicURLs : PublicURLs) :
    ∃ out, AnthropicConverter.Convert deps messages publicURLs = Except.ok out ∧
      out.length = messages.length - messages.countP (fun m => decide (m.Role = "system")) ∧
      out.length = (messages.filter AnthropicConverter.notSystem).length ∧
      ∀ i : Nat, out[i]? =
        ((messages.filter AnthropicConverter.notSystem)[i]?).map
          (AnthropicConverter.convertMessage deps publicURLs) := by
  refine ⟨_, AnthropicConverter.anthropic_Convert_eq deps messages publicURLs, ?_, by simp, ?_⟩
  · have h1 := List.length_eq_countP_add_countP (fun m : Message => decide (m.Role = "system"))
      messages
    have h2 : (messages.filter AnthropicConverter.notSystem).length =
        messages.countP (fun m => !decide (m.Role = "system")) := by
      rw [List.countP_eq_length_filter]
      congr 1
      apply List.filter_congr
      intro m _
      simp [AnthropicConverter.notSystem]
    simp only [List.length_map, h2]
    simp only [Bool.not_eq_true, decide_eq_false_iff_not, decide_not] at h1
    omega
  · intro i
    simp [List.getElem?_map]

/-- C2: `convertRole` maps `assistant` to `assistant` and every other role to `user`;
hence every message returned by `AnthropicConverter.Convert` has role `user` or
`assistant`. -/
theorem C2_anthropic_role_mapping (deps : Deps) (messages : List Message)
    (publicURLs : PublicURLs) (r : String) :
    AnthropicConverter.convertRole r = (if r = "assistant" then "assistant" else "user") ∧
    ∃ out, AnthropicConverter.Convert deps messages publicURLs = Except.ok out ∧
      ∀ m ∈ out, m.Role = "user" ∨ m.Role = "assistant" := by
  constructor
  · unfold AnthropicConverter.convertRole
    split <;> simp
  · refine ⟨_, AnthropicConverter.anthropic_Convert_eq deps messages publicURLs, ?_⟩
    intro m hm
    obtain ⟨msg, -, rfl⟩ := List.mem_map.mp hm
    have hrole : (AnthropicConverter.convertMessage deps publicURLs msg).Role =
        AnthropicConverter.convertRole msg.Role := by
      unfold AnthropicConverter.convertMessage
      split <;> rfl
    rw [hrole]
    unfold AnthropicConverter.convertRole
    split
    · exact Or.inr rfl
    · split <;> exact Or.inl rfl

/-- C3: a message that is not a `system` message and has exactly one part, of type
`text`, is converted by `AnthropicConverter.Convert` into a message whose content is the
bare string of the part's text (whatever the text, the empty string included), not a
block array. -/
theorem C3_anthropic_single_text (deps : Deps) (publicURLs : PublicURLs)
    (before after : List Message) (role : String) (p : Part)
    (hrole : role ≠ "system") (htype : p.Type_ = "text") :
    AnthropicConverter.convertParts deps [p] publicURLs = AnthropicContent.text p.Text ∧
    ∃ out, AnthropicConverter.Convert deps
        (before ++ { Role := role, Parts := [p] } :: after) publicURLs = Except.ok out ∧
      (out[(before.filter AnthropicConverter.notSystem).length]?).map (fun m => m.Content) =
        some (AnthropicContent.text p.Text) := by
  have hparts : AnthropicConverter.convertParts deps [p] publicURLs =
      AnthropicContent.text p.Text := by
    simp [AnthropicConverter.convertParts, htype]
  refine ⟨hparts, _, AnthropicConverter.anthropic_Convert_eq deps _ publicURLs, ?_⟩
  have hkeep : AnthropicConverter.notSystem { Role := role, Parts := [p] } = true := by
    simp [AnthropicConverter.notSystem, hrole]
  rw [List.filter_append, List.filter_cons_of_pos hkeep, List.map_append, List.map_cons]
  rw [List.getElem?_append_right (by simp)]
  simp [AnthropicConverter.convertMessage, hparts]

/-- C3 at a concrete input: a `system` message followed by a `user` message whose only
part is a text part with the empty text. -/
theorem C3_anthropic_single_text_witness :
    AnthropicConverter.convertParts sampleDeps [{ Type_ := "text", Text := "" }] [] =
      AnthropicContent.text "" ∧
    ∃ out, AnthropicConverter.Convert sampleDeps
        ([{ Role := "system", Parts := [{ Type_ := "text", Text := "be brief" }] }] ++
          { Role := "user", Parts := [{ Type_ := "text", Text := "" }] } :: []) [] =
          Except.ok out ∧
      (out[([{ Role := "system", Parts := [{ Type_ := "text", Text := "be brief" }] }].filter
          AnthropicConverter.notSystem).length]?).map (fun m => m.Content) =
        some (AnthropicContent.text "") :=
  C3_anthropic_single_text sampleDeps []
    [{ Role := "system", Parts := [{ Type_ := "text", Text := "be brief" }] }] []
    "user" { Type_ := "text", Text := "" } (by decide) rfl

/-- C4: for every role, a message with exactly one part, of type `text`, is converted by
`LangChainConverter.Convert` into a message whose content is the part's text verbatim;
the serializer is not consulted. -/
theorem C4_langchain_single_text (marshal : Any → Option String) (publicURLs : PublicURLs)
    (before after : List Message) (role : String) (p : Part) (htype : p.Type_ = "text") :
    LangChainConverter.extractContent marshal [p] publicURLs = p.Text ∧
    ∃ out, LangChainConverter.Convert marshal
        (before ++ { Role := role, Parts := [p] } :: after) publicURLs = Except.ok out ∧
      (out[before.length]?).map ChatMessage.GetContent = some p.Text := by
  have hcontent : LangChainConverter.extractContent marshal [p] publicURLs = p.Text := by
    simp [LangChainConverter.extractContent, htype]
  refine ⟨hcontent, _, LangChainConverter.langchain_Convert_eq marshal _ publicURLs, ?_⟩
  rw [List.map_append, List.map_cons, List.getElem?_append_right (by simp)]
  simp only [List.length_map, Nat.sub_self, List.getElem?_cons_zero, Option.map_some',
    Option.some.injEq]
  unfold LangChainConverter.convertMessage
  simp only [hcontent]
  split_ifs <;> rfl

/-- C4 at a concrete input: a `tool` message with the single text part `test`, and a
serializer that would fail. -/
theorem C4_langchain_single_text_witness :
    LangChainConverter.extractContent (fun _ => none) [{ Type_ := "text", Text := "test" }] [] =
      "test" ∧
    ∃ out, LangChainConverter.Convert (fun _ => none)
        ([] ++ { Role := "tool", Parts := [{ Type_ := "text", Text := "test" }] } :: []) [] =
          Except.ok out ∧
      (out[([] : List Message).length]?).map ChatMessage.GetContent = some "test" :=
  C4_langchain_single_text (fun _ => none) [] [] [] "tool" { Type_ := "text", Text := "test" } rfl

/-- C5: `LangChainConverter.Convert` returns (with a nil error) exactly one message per
input message, in input order, `system` messages included; the struct of each is fixed by
the role: `user` gives Human, `assistant` gives AI with the extracted tool calls,
`function` gives AI without tool calls, `system` gives System, `tool` gives Tool with the
extracted id, every other role gives Generic labelled with that role. Only an `assistant`
message carries tool calls. -/
theorem C5_langchain_role_kinds (marshal : Any → Option String) (messages : List Message)
    (publicURLs : PublicURLs) :
    ∃ out, LangChainConverter.Convert marshal messages publicURLs = Except.ok out ∧
      out.length = messages.length ∧
      ∀ (i : Nat) (msg : Message), messages[i]? = some msg →
        ∃ cm, out[i]? = some cm ∧
          cm.GetContent = LangChainConverter.extractContent marshal msg.Parts publicURLs ∧
          (msg.Role = "user" → cm = ChatMessage.Human cm.GetContent) ∧
          (msg.Role = "assistant" → cm = ChatMessage.AI cm.GetContent
            (LangChainConverter.extractToolCalls marshal msg.Parts)) ∧
          (msg.Role = "function" → cm = ChatMessage.AI cm.GetContent []) ∧
          (msg.Role = "system" → cm = ChatMessage.System cm.GetContent) ∧
          (msg.Role = "tool" → cm = ChatMessage.Tool
            (LangChainConverter.extractToolCallID msg.Parts) cm.GetContent) ∧
          (msg.Role ≠ "user" → msg.Role ≠ "assistant" → msg.Role ≠ "function" →
            msg.Role ≠ "system" → msg.Role ≠ "tool" →
            cm = ChatMessage.Generic cm.GetContent msg.Role) ∧
          (msg.Role ≠ "assistant" → cm.toolCalls = []) := by
  refine ⟨_, LangChainConverter.langchain_Convert_eq marshal messages publicURLs, by simp, ?_⟩
  intro i msg hmsg
  refine ⟨LangChainConverter.convertMessage marshal publicURLs msg, by simp [hmsg], ?_⟩
  unfold LangChainConverter.convertMessage
  by_cases h1 : msg.Role = "user"
  · simp [h1, ChatMessage.GetContent, ChatMessage.toolCalls]
  by_cases h2 : msg.Role = "assistant"
  · simp [h2, ChatMessage.GetContent, ChatMessage.toolCalls]
  by_cases h3 : msg.Role = "function"
  · simp [h3, ChatMessage.GetContent, ChatMessage.toolCalls]
  by_cases h4 : msg.Role = "system"
  · simp [h4, ChatMessage.GetContent, ChatMessage.toolCalls]
  by_cases h5 : msg.Role = "tool"
  · simp [h5, ChatMessage.GetContent, ChatMessage.toolCalls]
  simp [h1, h2, h3, h4, h5, ChatMessage.GetContent, ChatMessage.toolCalls]

/-- C6, as stated, fails: an `assistant` message whose only part is a `tool-call` part
with a nil meta map has one part of type `tool-call` and an AI message without any
tool-call record. -/
theorem C6_langchain_tool_calls_counterexample :
    LangChainConverter.Convert sampleMarshal
        [{ Role := "assistant", Parts := [{ Type_ := "tool-call", Text := "get_weather" }] }] [] =
      Except.ok [ChatMessage.AI "[\x7b\"type\":\"tool-call\",\"meta\":null,\"text\":\"get_weather\"\x7d]" []] ∧
    List.countP (fun p : Part => decide (p.Type_ = "tool-call"))
        [{ Type_ := "tool-call", Text := "get_weather" }] = 1 ∧
    (LangChainConverter.extractToolCalls sampleMarshal
        [{ Type_ := "tool-call", Text := "get_weather" }]).length = 0 := by
  refine ⟨by rfl, by decide, by decide⟩

/-- C6, amended: the AI message of an `assistant` message carries exactly one tool-call
record for each part of type `tool-call` whose meta map is present (not nil), in part
order; so the number of records is the number of such parts. -/
theorem C6_langchain_tool_calls (marshal : Any → Option String) (publicURLs : PublicURLs)
    (parts : List Part) :
    LangChainConverter.convertMessage marshal publicURLs
        { Role := "assistant", Parts := parts } =
      ChatMessage.AI (LangChainConverter.extractContent marshal parts publicURLs)
        (LangChainConverter.extractToolCalls marshal parts) ∧
    LangChainConverter.extractToolCalls marshal parts =
      (parts.filter (fun p => decide (p.Type_ = "tool-call") && p.Meta.isSome)).map
        (fun p => LangChainConverter.buildToolCall marshal (p.Meta.getD [])) ∧
    (LangChainConverter.extractToolCalls marshal parts).length =
      parts.countP (fun p => decide (p.Type_ = "tool-call") && p.Meta.isSome) := by
  have hclosed : LangChainConverter.extractToolCalls marshal parts =
      (parts.filter (fun p => decide (p.Type_ = "tool-call") && p.Meta.isSome)).map
        (fun p => LangChainConverter.buildToolCall marshal (p.Meta.getD [])) := by
    rw [LangChainConverter.extractToolCalls_eq]
    induction parts with
    | nil => rfl
    | cons part rest ih =>
      by_cases h : part.Type_ = "tool-call"
      · cases hm : part.Meta <;>
          simp [List.filterMap_cons, List.filter_cons, toolCallOf, h, hm, ih]
      · simp [List.filterMap_cons, List.filter_cons, toolCallOf, h, ih]
  refine ⟨by simp [LangChainConverter.convertMessage], hclosed, ?_⟩
  rw [hclosed, List.length_map, List.countP_eq_length_filter]

/-- C7: a `tool-call` part of an `assistant` message whose meta map is present yields a
tool-call record at its place among the records; the record's ID is `meta.id` when that
is a string and empty otherwise, and its `FunctionCall` is present with `Name` equal to
`meta.tool_name` when that is a string and nil otherwise. A missing or non-string key
affects only its own field and the record is produced all the same. -/
theorem C7_langchain_tool_call_id_name (marshal : Any → Option String)
    (publicURLs : PublicURLs) (before after : List Part) (p : Part) (m : GoMap)
    (htype : p.Type_ = "tool-call") (hmeta : p.Meta = some m) :
    ∃ tc : ToolCall,
      (LangChainConverter.convertMessage marshal publicURLs
          { Role := "assistant", Parts := before ++ p :: after }).toolCalls =
        LangChainConverter.extractToolCalls marshal before ++
          tc :: LangChainConverter.extractToolCalls marshal after ∧
      (∀ id, m.getString "id" = some id → tc.ID = id) ∧
      (m.getString "id" = none → tc.ID = "") ∧
      (∀ name, m.getString "tool_name" = some name →
        ∃ fc, tc.FunctionCall = some fc ∧ fc.Name = name) ∧
      (m.getString "tool_name" = none → tc.FunctionCall = none) := by
  refine ⟨LangChainConverter.buildToolCall marshal m, ?_, ?_, ?_, ?_, ?_⟩
  · simp [LangChainConverter.convertMessage, ChatMessage.toolCalls,
      LangChainConverter.extractToolCalls_append,
      LangChainConverter.extractToolCalls_cons_toolCall marshal p after m htype hmeta]
  · intro id hid
    rw [LangChainConverter.buildToolCall_ID, hid]
    rfl
  · intro hid
    rw [LangChainConverter.buildToolCall_ID, hid]
    rfl
  · intro name hname
    have h := LangChainConverter.buildToolCall_Name marshal m
    rw [hname] at h
    cases hfc : (LangChainConverter.buildToolCall marshal m).FunctionCall with
    | none => simp [hfc] at h
    | some fc =>
      refine ⟨fc, rfl, ?_⟩
      simpa [hfc] using h
  · intro hname
    have h := LangChainConverter.buildToolCall_Name marshal m
    rw [hname] at h
    simpa using h

/-- C7 at the input of `TestLangChainConverter_ToolCalls`: id `call_123`, tool name
`get_weather`, arguments with a location. -/
theorem C7_langchain_tool_call_id_name_witness :
    ∃ tc : ToolCall,
      (LangChainConverter.convertMessage sampleMarshal []
          { Role := "assistant", Parts := [] ++
            { Type_ := "tool-call",
              Meta := some [("id", Any.str "call_123"), ("tool_name", Any.str "get_weather"),
                ("arguments", Any.map [("location", Any.str "San Francisco")])] } :: [] }).toolCalls =
        LangChainConverter.extractToolCalls sampleMarshal [] ++
          tc :: LangChainConverter.extractToolCalls sampleMarshal [] ∧
      tc.ID = "call_123" ∧
      ∃ fc, tc.FunctionCall = some fc ∧ fc.Name = "get_weather" := by
  obtain ⟨tc, hpos, hid, -, hname, -⟩ := C7_langchain_tool_call_id_name sampleMarshal [] [] []
    { Type_ := "tool-call",
      Meta := some [("id", Any.str "call_123"), ("tool_name", Any.str "get_weather"),
        ("arguments", Any.map [("location", Any.str "San Francisco")])] }
    [("id", Any.str "call_123"), ("tool_name", Any.str "get_weather"),
      ("arguments", Any.map [("location", Any.str "San Francisco")])] rfl rfl
  exact ⟨tc, hpos, hid "call_123" (by decide), hname "get_weather" (by decide)⟩

/-- C8, as stated, fails: a `tool-call` part whose meta map holds `id` and serializable
`arguments` but no `tool_name` yields a record with a nil `FunctionCall`, so the record
carries no function arguments at all. -/
theorem C8_langchain_tool_call_arguments_counterexample :
    sampleMarshal (Any.map [("location", Any.str "San Francisco")]) =
      some "\x7b\"location\":\"San Francisco\"\x7d" ∧
    ((LangChainConverter.convertMessage sampleMarshal []
        { Role := "assistant", Parts := [
          { Type_ := "tool-call",
            Meta := some [("id", Any.str "call_123"),
              ("arguments", Any.map [("location", Any.str "San Francisco")])] }] }).toolCalls.map
      (fun tc => (tc.ID, tc.FunctionCall.map (fun fc => fc.Arguments)))) =
      [("call_123", none)] := by
  refine ⟨by decide, by decide⟩

/-- C8, amended: a `tool-call` part of an `assistant` message whose meta map holds the key
`arguments` with a value that serializes, and whose `meta.tool_name` is a string, yields a
record whose `FunctionCall` carries that name and, as arguments, the JSON serialization of
`meta.arguments`, whether or not `meta.id` is present. When `meta.tool_name` is missing
or not a string, the record has a nil `FunctionCall` and the arguments are not carried. -/
theorem C8_langchain_tool_call_arguments (marshal : Any → Option String)
    (publicURLs : PublicURLs) (before after : List Part) (p : Part) (m : GoMap)
    (args : Any) (argsBytes : String)
    (htype : p.Type_ = "tool-call") (hmeta : p.Meta = some m)
    (hargs : m.get "arguments" = some args) (hser : marshal args = some argsBytes) :
    ∃ tc : ToolCall,
      (LangChainConverter.convertMessage marshal publicURLs
          { Role := "assistant", Parts := before ++ p :: after }).toolCalls =
        LangChainConverter.extractToolCalls marshal before ++
          tc :: LangChainConverter.extractToolCalls marshal after ∧
      (∀ toolName, m.getString "tool_name" = some toolName →
        tc.FunctionCall = some { Name := toolName, Arguments := argsBytes }) ∧
      (m.getString "tool_name" = none → tc.FunctionCall = none) := by
  refine ⟨LangChainConverter.buildToolCall marshal m, ?_, ?_, ?_⟩
  · simp [LangChainConverter.convertMessage, ChatMessage.toolCalls,
      LangChainConverter.extractToolCalls_append,
      LangChainConverter.extractToolCalls_cons_toolCall marshal p after m htype hmeta]
  · intro toolName hname
    unfold LangChainConverter.buildToolCall
    cases hid : m.getString "id" <;> simp [hname, hargs, hser]
  · intro hname
    unfold LangChainConverter.buildToolCall
    cases hid : m.getString "id" <;> simp [hname, hargs, hser]

/-- C8 (amended) at a concrete input: a tool name and arguments, no `id`. -/
theorem C8_langchain_tool_call_arguments_witness :
    ∃ tc : ToolCall,
      (LangChainConverter.convertMessage sampleMarshal []
          { Role := "assistant", Parts := [] ++
            { Type_ := "tool-call",
              Meta := some [("tool_name", Any.str "get_weather"),
                ("arguments", Any.map [("location", Any.str "San Francisco")])] } :: [] }).toolCalls =
        LangChainConverter.extractToolCalls sampleMarshal [] ++
          tc :: LangChainConverter.extractToolCalls sampleMarshal [] ∧
      tc.FunctionCall =
        some { Name := "get_weather", Arguments := "\x7b\"location\":\"San Francisco\"\x7d" } := by
  obtain ⟨tc, hpos, hfc, -⟩ := C8_langchain_tool_call_arguments sampleMarshal [] [] []
    { Type_ := "tool-call",
      Meta := some [("tool_name", Any.str "get_weather"),
        ("arguments", Any.map [("location", Any.str "San Francisco")])] }
    [("tool_name", Any.str "get_weather"),
      ("arguments", Any.map [("location", Any.str "San Francisco")])]
    (Any.map [("location", Any.str "San Francisco")])
    "\x7b\"location\":\"San Francisco\"\x7d" rfl rfl (by rfl) (by decide)
  exact ⟨tc, hpos, hfc "get_weather" (by decide)⟩

/-- C9: the Tool message of a `tool` message has as ID the `meta.tool_call_id` of the
first part, in part order, that has type `tool-result` and a string under that key; parts
before it that do not qualify (other types, nil meta, key missing or not a string) are
skipped. The ID is the empty string when no part qualifies. -/
theorem C9_langchain_tool_call_id (marshal : Any → Option String) (publicURLs : PublicURLs)
    (parts : List Part) :
    LangChainConverter.convertMessage marshal publicURLs { Role := "tool", Parts := parts } =
      ChatMessage.Tool (LangChainConverter.extractToolCallID parts)
        (LangChainConverter.extractContent marshal parts publicURLs) ∧
    (∀ (before after : List Part) (p : Part) (id : String), parts = before ++ p :: after →
      (∀ q ∈ before, ∀ j, ¬ hasToolCallID q j) → hasToolCallID p id →
      LangChainConverter.extractToolCallID parts = id) ∧
    ((∀ q ∈ parts, ∀ j, ¬ hasToolCallID q j) →
      LangChainConverter.extractToolCallID parts = "") := by
  refine ⟨by simp [LangChainConverter.convertMessage], ?_, ?_⟩
  · intro before after p id hparts hskip hp
    rw [hparts, LangChainConverter.extractToolCallID_skip before (p :: after) hskip]
    exact LangChainConverter.extractToolCallID_hit p after id hp
  · intro hnone
    have h := LangChainConverter.extractToolCallID_skip parts [] hnone
    simpa [LangChainConverter.extractToolCallID] using h

/-- C9 at a concrete input: a text part, a `tool-result` part without the key, then the
`tool-result` part of `TestLangChainConverter_ToolResult`, then one more with another id. -/
theorem C9_langchain_tool_call_id_witness :
    LangChainConverter.extractToolCallID
      [{ Type_ := "text", Text := "done" },
       { Type_ := "tool-result", Meta := some [("result", Any.str "partial")] },
       { Type_ := "tool-result",
         Meta := some [("tool_call_id", Any.str "call_123"),
           ("result", Any.str "The weather is sunny")] },
       { Type_ := "tool-result", Meta := some [("tool_call_id", Any.str "call_456")] }] =
      "call_123" :=
  (C9_langchain_tool_call_id sampleMarshal []
      [{ Type_ := "text", Text := "done" },
       { Type_ := "tool-result", Meta := some [("result", Any.str "partial")] },
       { Type_ := "tool-result",
         Meta := some [("tool_call_id", Any.str "call_123"),
           ("result", Any.str "The weather is sunny")] },
       { Type_ := "tool-result", Meta := some [("tool_call_id", Any.str "call_456")] }]).2.1
    [{ Type_ := "text", Text := "done" },
     { Type_ := "tool-result", Meta := some [("result", Any.str "partial")] }]
    [{ Type_ := "tool-result", Meta := some [("tool_call_id", Any.str "call_456")] }]
    { Type_ := "tool-result",
      Meta := some [("tool_call_id", Any.str "call_123"),
        ("result", Any.str "The weather is sunny")] }
    "call_123" rfl
    (by
      intro q hq j hj
      simp only [List.mem_cons, List.mem_singleton, List.not_mem_nil, or_false] at hq
      rcases hq with rfl | rfl
      · exact absurd hj.1 (by decide)
      · obtain ⟨-, m, hm, hid⟩ := hj
        cases hm
        have hno : GoMap.getString [("result", Any.str "partial")] "tool_call_id" = none := by
          decide
        rw [hno] at hid
        cases hid)
    ⟨rfl, _, rfl, by decide⟩

/-- C10, as stated, fails: when the array of part objects does not serialize (here a
`data` part whose meta holds a value of an unsupported dynamic type) the content is the
empty string, which is not the JSON serialization of an array. -/
theorem C10_langchain_multi_part_counterexample :
    LangChainConverter.contentParts
        [{ Type_ := "text", Text := "see handle" },
         { Type_ := "data", Meta := some [("handle", Any.other 0)] }] [] =
      [[("type", Any.str "text"), ("text", Any.str "see handle")],
       [("type", Any.str "data"), ("meta", Any.map [("handle", Any.other 0)])]] ∧
    sampleMarshal (Any.arr ((LangChainConverter.contentParts
        [{ Type_ := "text", Text := "see handle" },
         { Type_ := "data", Meta := some [("handle", Any.other 0)] }] []).map Any.map)) = none ∧
    LangChainConverter.extractContent sampleMarshal
        [{ Type_ := "text", Text := "see handle" },
         { Type_ := "data", Meta := some [("handle", Any.other 0)] }] [] = "" := by
  refine ⟨by rfl, by decide, by decide⟩

/-- C10, amended: for a non-empty part list that is not a single text part, the slice
that `extractContent` serializes has exactly one object per part, in part order, each
with `type` equal to the part's type; the object of an image, audio, video or file part
with an asset has `filename` and `mime`, and has a `url` key exactly when the asset hash
is a key of the lookup, with the lookup's URL as value. The content is the JSON
serialization of that slice whenever the serializer succeeds, and the empty string when
it reports an error. -/
theorem C10_langchain_multi_part (marshal : Any → Option String) (parts : List Part)
    (publicURLs : PublicURLs) (hne : parts ≠ [])
    (hmulti : ∀ p, parts = [p] → p.Type_ ≠ "text") :
    (∀ s, marshal (Any.arr ((LangChainConverter.contentParts parts publicURLs).map Any.map)) =
        some s → LangChainConverter.extractContent marshal parts publicURLs = s) ∧
    (marshal (Any.arr ((LangChainConverter.contentParts parts publicURLs).map Any.map)) = none →
      LangChainConverter.extractContent marshal parts publicURLs = "") ∧
    (LangChainConverter.contentParts parts publicURLs).length = parts.length ∧
    ∀ (i : Nat) (p : Part), parts[i]? = some p →
      ∃ obj : GoMap, (LangChainConverter.contentParts parts publicURLs)[i]? = some obj ∧
        obj.get "type" = some (Any.str p.Type_) ∧
        ∀ a : Asset,
          p.Type_ = "image" ∨ p.Type_ = "audio" ∨ p.Type_ = "video" ∨ p.Type_ = "file" →
          p.Asset = some a →
            obj.get "filename" = some (Any.str p.Filename) ∧
            obj.get "mime" = some (Any.str a.MIME) ∧
            ((∃ v, obj.get "url" = some v) ↔
              ∃ pubURL, List.lookup a.SHA256 publicURLs = some pubURL) ∧
            ∀ pubURL, List.lookup a.SHA256 publicURLs = some pubURL →
              obj.get "url" = some (Any.str pubURL.URL) := by
  have hcontent := LangChainConverter.extractContent_multi marshal parts publicURLs hne hmulti
  refine ⟨?_, ?_, by simp [LangChainConverter.contentParts_eq], ?_⟩
  · intro s hs
    rw [hcontent, hs]
    rfl
  · intro hfail
    rw [hcontent, hfail]
    rfl
  · intro i p hp
    refine ⟨LangChainConverter.partMap publicURLs p, ?_,
      LangChainConverter.partMap_type publicURLs p, ?_⟩
    · simp [LangChainConverter.contentParts_eq, List.getElem?_map, hp]
    · intro a htype hasset
      obtain ⟨hfile, hmime, hurl⟩ := LangChainConverter.partMap_asset publicURLs p a htype hasset
      refine ⟨hfile, hmime, ?_, ?_⟩
      · rw [hurl]
        cases List.lookup a.SHA256 publicURLs <;> simp
      · intro pubURL hl
        rw [hurl, hl]
        rfl

/-- C10 (amended) at the input of `TestLangChainConverter_MultipleParts`: the text
`Can you analyze this image?` followed by an image whose hash resolves to
`https://example.com/test.png`, with the reference encoder. -/
theorem C10_langchain_multi_part_witness :
    LangChainConverter.extractContent sampleMarshal
      [{ Type_ := "text", Text := "Can you analyze this image?" },
       { Type_ := "image", Filename := "test.png",
         Asset := some { SHA256 := "abc123", MIME := "image/png" } }]
      [("abc123", { URL := "https://example.com/test.png" })] =
    "[\x7b\"type\":\"text\",\"text\":\"Can you analyze this image?\"\x7d,\x7b\"type\":\"image\",\"url\":\"https://example.com/test.png\",\"filename\":\"test.png\",\"mime\":\"image/png\"\x7d]" :=
  (C10_langchain_multi_part sampleMarshal
      [{ Type_ := "text", Text := "Can you analyze this image?" },
       { Type_ := "image", Filename := "test.png",
         Asset := some { SHA256 := "abc123", MIME := "image/png" } }]
      [("abc123", { URL := "https://example.com/test.png" })]
      (by simp) (by intro p hp; cases hp)).1 _ (by decide)

/-- C11, as stated, fails: with the text `Can you analyze this image?` followed by an
image whose hash is absent from the lookup, the slice that `extractContent` serializes
still has two objects, as many as when the hash resolves, and the second is the object
of the image part, without a `url` key. -/
theorem C11_langchain_unresolved_image_counterexample :
    (LangChainConverter.contentParts
        [{ Type_ := "text", Text := "Can you analyze this image?" },
         { Type_ := "image", Filename := "test.png",
           Asset := some { SHA256 := "abc123", MIME := "image/png" } }] []).length = 2 ∧
    (LangChainConverter.contentParts
        [{ Type_ := "text", Text := "Can you analyze this image?" },
         { Type_ := "image", Filename := "test.png",
           Asset := some { SHA256 := "abc123", MIME := "image/png" } }]
        [("abc123", { URL := "https://example.com/test.png" })]).length = 2 ∧
    LangChainConverter.extractContent sampleMarshal
        [{ Type_ := "text", Text := "Can you analyze this image?" },
         { Type_ := "image", Filename := "test.png",
           Asset := some { SHA256 := "abc123", MIME := "image/png" } }] [] =
      "[\x7b\"type\":\"text\",\"text\":\"Can you analyze this image?\"\x7d,\x7b\"type\":\"image\",\"filename\":\"test.png\",\"mime\":\"image/png\"\x7d]" := by
  refine ⟨by decide, by decide, by decide⟩

/-- C11, amended: an image part whose asset hash is absent from the lookup keeps its
object in the LangChain content, at the part's position, with `type`, `filename` and
`mime` but without a `url` key; the number of content objects is the number of parts,
the same as under any other lookup. -/
theorem C11_langchain_unresolved_image (publicURLs : PublicURLs) (parts : List Part)
    (i : Nat) (p : Part) (a : Asset) (hp : parts[i]? = some p) (htype : p.Type_ = "image")
    (hasset : p.Asset = some a) (hlookup : List.lookup a.SHA256 publicURLs = none) :
    (∀ resolved : PublicURLs,
      (LangChainConverter.contentParts parts publicURLs).length =
        (LangChainConverter.contentParts parts resolved).length) ∧
    (LangChainConverter.contentParts parts publicURLs).length = parts.length ∧
    ∃ obj : GoMap, (LangChainConverter.contentParts parts publicURLs)[i]? = some obj ∧
      obj.get "type" = some (Any.str "image") ∧
      obj.get "url" = none ∧
      obj.get "filename" = some (Any.str p.Filename) ∧
      obj.get "mime" = some (Any.str a.MIME) := by
  refine ⟨by simp [LangChainConverter.contentParts_eq],
    by simp [LangChainConverter.contentParts_eq], LangChainConverter.partMap publicURLs p, ?_, ?_, ?_⟩
  · simp [LangChainConverter.contentParts_eq, List.getElem?_map, hp]
  · rw [LangChainConverter.partMap_type, htype]
  · obtain ⟨hfile, hmime, hurl⟩ :=
      LangChainConverter.partMap_asset publicURLs p a (Or.inl htype) hasset
    rw [hlookup] at hurl
    exact ⟨hurl, hfile, hmime⟩

/-- C11 (amended) at a concrete input: the image `test.png` after a text part, with the
nil lookup. -/
theorem C11_langchain_unresolved_image_witness :
    ∃ obj : GoMap,
      (LangChainConverter.contentParts
        [{ Type_ := "text", Text := "Can you analyze this image?" },
         { Type_ := "image", Filename := "test.png",
           Asset := some { SHA256 := "abc123", MIME := "image/png" } }] [])[1]? = some obj ∧
      obj.get "type" = some (Any.str "image") ∧
      obj.get "url" = none ∧
      obj.get "filename" = some (Any.str "test.png") ∧
      obj.get "mime" = some (Any.str "image/png") :=
  (C11_langchain_unresolved_image []
    [{ Type_ := "text", Text := "Can you analyze this image?" },
     { Type_ := "image", Filename := "test.png",
       Asset := some { SHA256 := "abc123", MIME := "image/png" } }]
    1
    { Type_ := "image", Filename := "test.png",
      Asset := some { SHA256 := "abc123", MIME := "image/png" } }
    { SHA256 := "abc123", MIME := "image/png" } rfl rfl rfl rfl).2.2

/-- C12: an image part that has no asset, or whose asset hash is not a key of the
lookup, makes `convertImagePart` return nil; the part adds nothing to the slice of
blocks, so the blocks of the message are those of the parts before it followed by those
of the parts after it, and no `http.Get` is issued for it. -/
theorem C12_anthropic_unresolved_image (deps : Deps) (publicURLs : PublicURLs)
    (before after : List Part) (p : Part) (htype : p.Type_ = "image")
    (hun : p.Asset = none ∨ ∃ a, p.Asset = some a ∧ List.lookup a.SHA256 publicURLs = none) :
    AnthropicConverter.convertImagePart deps p publicURLs = none ∧
    (∀ acc, AnthropicConverter.convertPartsStep deps publicURLs acc p = acc) ∧
    AnthropicConverter.buildBlocks deps (before ++ p :: after) publicURLs =
      AnthropicConverter.buildBlocks deps before publicURLs ++
        AnthropicConverter.buildBlocks deps after publicURLs ∧
    AnthropicConverter.convertImagePartRequests p publicURLs = [] := by
  have hurl := AnthropicConverter.getAssetURL_unresolved p.Asset publicURLs hun
  have hnil := AnthropicConverter.convertImagePart_unresolved deps p publicURLs hurl
  have hstep : ∀ acc, AnthropicConverter.convertPartsStep deps publicURLs acc p = acc := by
    intro acc
    simp [AnthropicConverter.convertPartsStep, htype, hnil, AnthropicConverter.appendBlock]
  refine ⟨hnil, hstep, ?_, ?_⟩
  · rw [AnthropicConverter.buildBlocks_append, AnthropicConverter.buildBlocks_cons, hstep]
    rfl
  · unfold AnthropicConverter.convertImagePartRequests
    cases hasset : p.Asset with
    | none => rfl
    | some a =>
      rw [hasset] at hurl
      simp [hurl]

/-- C12 at a concrete input: a text part followed by an image whose hash is not in the
lookup; the only block is the text block. -/
theorem C12_anthropic_unresolved_image_witness :
    AnthropicConverter.buildBlocks sampleDeps
        ([{ Type_ := "text", Text := "Can you analyze this image?" }] ++
          { Type_ := "image", Filename := "test.png",
            Asset := some { SHA256 := "abc123", MIME := "image/png" } } :: [])
        [("other", { URL := "https://example.com/other.png" })] =
      AnthropicConverter.buildBlocks sampleDeps
          [{ Type_ := "text", Text := "Can you analyze this image?" }]
          [("other", { URL := "https://example.com/other.png" })] ++
        AnthropicConverter.buildBlocks sampleDeps []
          [("other", { URL := "https://example.com/other.png" })] ∧
    AnthropicConverter.convertImagePartRequests
        { Type_ := "image", Filename := "test.png",
          Asset := some { SHA256 := "abc123", MIME := "image/png" } }
        [("other", { URL := "https://example.com/other.png" })] = [] :=
  (C12_anthropic_unresolved_image sampleDeps
    [("other", { URL := "https://example.com/other.png" })]
    [{ Type_ := "text", Text := "Can you analyze this image?" }] []
    { Type_ := "image", Filename := "test.png",
      Asset := some { SHA256 := "abc123", MIME := "image/png" } }
    rfl (Or.inr ⟨_, rfl, by rfl⟩)).2.2

/-- C13: an image part whose asset hash resolves to a non-empty URL yields exactly one
block, of type `image`, for every behaviour of `http.Get`. Its media type is the asset
MIME, or `image/jpeg` for an empty MIME. Its source is the base64 text of the body when
the URL has an HTTP(S) scheme and the request returns status 200 with a body that reads
and is not empty, and the URL reference in every other case. A URL without an HTTP(S)
scheme is never requested; one with such a scheme is requested once. -/
theorem C13_anthropic_image_block (deps : Deps) (publicURLs : PublicURLs) (p : Part)
    (a : Asset) (pubURL : PublicURL) (htype : p.Type_ = "image") (hasset : p.Asset = some a)
    (hlookup : List.lookup a.SHA256 publicURLs = some pubURL) (hne : pubURL.URL ≠ "") :
    ∃ src : AnthropicImageSource,
      AnthropicConverter.convertImagePart deps p publicURLs =
        some { Type_ := "image", Source := some src } ∧
      (∀ acc, AnthropicConverter.convertPartsStep deps publicURLs acc p =
        acc ++ [{ Type_ := "image", Source := some src }]) ∧
      src.MediaType = (if a.MIME = "" then "image/jpeg" else a.MIME) ∧
      (∀ data, hasHTTPScheme pubURL.URL = true →
        deps.httpGet pubURL.URL = HttpResult.response 200 (some data) → data ≠ [] →
        src = { Type_ := "base64", MediaType := src.MediaType, Data := base64Encode data }) ∧
      ((hasHTTPScheme pubURL.URL = false ∨
          ¬ ∃ data, deps.httpGet pubURL.URL = HttpResult.response 200 (some data) ∧ data ≠ []) →
        src = { Type_ := "url", MediaType := src.MediaType, URL := pubURL.URL }) ∧
      (hasHTTPScheme pubURL.URL = false →
        AnthropicConverter.convertImagePartRequests p publicURLs = []) ∧
      (hasHTTPScheme pubURL.URL = true →
        AnthropicConverter.convertImagePartRequests p publicURLs = [pubURL.URL]) := by
  have hurl : AnthropicConverter.getAssetURL (some a) publicURLs = pubURL.URL :=
    AnthropicConverter.getAssetURL_resolved a publicURLs pubURL hlookup
  have hreq1 : hasHTTPScheme pubURL.URL = false →
      AnthropicConverter.convertImagePartRequests p publicURLs = [] := by
    intro hs
    simp only [hasHTTPScheme, Bool.or_eq_false_iff] at hs
    unfold AnthropicConverter.convertImagePartRequests
    simp only [hasset, hurl]
    simp [hne, AnthropicConverter.fetchAndEncodeImageRequests, hs.1, hs.2]
  have hreq2 : hasHTTPScheme pubURL.URL = true →
      AnthropicConverter.convertImagePartRequests p publicURLs = [pubURL.URL] := by
    intro hs
    simp only [hasHTTPScheme, Bool.or_eq_true] at hs
    unfold AnthropicConverter.convertImagePartRequests
    simp only [hasset, hurl]
    rcases hs with h | h <;>
      simp [hne, AnthropicConverter.fetchAndEncodeImageRequests, h]
  have hstep : ∀ b, AnthropicConverter.convertImagePart deps p publicURLs = some b →
      ∀ acc, AnthropicConverter.convertPartsStep deps publicURLs acc p = acc ++ [b] := by
    intro b hb acc
    simp [AnthropicConverter.convertPartsStep, htype, hb, AnthropicConverter.appendBlock]
  by_cases hfetch : AnthropicConverter.fetchAndEncodeImage deps pubURL.URL
      (if a.MIME = "" then "image/jpeg" else a.MIME) = ""
  · have hblock : AnthropicConverter.convertImagePart deps p publicURLs =
        some { Type_ := "image",
               Source := some { Type_ := "url",
                                MediaType := (if a.MIME = "" then "image/jpeg" else a.MIME),
                                URL := pubURL.URL } } := by
      unfold AnthropicConverter.convertImagePart
      simp only [hasset, hurl]
      simp [hne, hfetch]
    refine ⟨_, hblock, hstep _ hblock, rfl, ?_, fun _ => rfl, hreq1, hreq2⟩
    intro data hs hget hdata
    rw [AnthropicConverter.fetchAndEncodeImage_success deps _ _ data hs hget] at hfetch
    exact absurd hfetch (base64Encode_ne_empty data hdata)
  · have hblock : AnthropicConverter.convertImagePart deps p publicURLs =
        some { Type_ := "image",
               Source := some { Type_ := "base64",
                                MediaType := (if a.MIME = "" then "image/jpeg" else a.MIME),
                                Data := AnthropicConverter.fetchAndEncodeImage deps pubURL.URL
                                  (if a.MIME = "" then "image/jpeg" else a.MIME) } } := by
      unfold AnthropicConverter.convertImagePart
      simp only [hasset, hurl]
      simp [hne, hfetch]
    obtain ⟨hs, data, hget, hdata⟩ :=
      AnthropicConverter.fetchAndEncodeImage_nonempty deps _ _ hfetch
    refine ⟨_, hblock, hstep _ hblock, rfl, ?_, ?_, hreq1, hreq2⟩
    · intro data2 hs2 hget2 _
      rw [AnthropicConverter.fetchAndEncodeImage_success deps _ _ data2 hs2 hget2]
    · rintro (hno | hno)
      · rw [hs] at hno
        cases hno
      · exact absurd ⟨data, hget, hdata⟩ hno

/-- C13 at a concrete input: the image `test.png` resolving to
`https://example.com/test.png`, served with the three bytes of `Man`. -/
theorem C13_anthropic_image_block_witness :
    ∃ src : AnthropicImageSource,
      AnthropicConverter.convertImagePart (sampleDepsServing [77, 97, 110])
          { Type_ := "image", Filename := "test.png",
            Asset := some { SHA256 := "abc123", MIME := "image/png" } }
          [("abc123", { URL := "https://example.com/test.png" })] =
        some { Type_ := "image", Source := some src } ∧
      src.Type_ = "base64" ∧ src.MediaType = "image/png" ∧ src.Data = "TWFu" ∧ src.URL = "" := by
  obtain ⟨src, hblock, -, hmedia, hbase64, -⟩ :=
    C13_anthropic_image_block (sampleDepsServing [77, 97, 110])
      [("abc123", { URL := "https://example.com/test.png" })]
      { Type_ := "image", Filename := "test.png",
        Asset := some { SHA256 := "abc123", MIME := "image/png" } }
      { SHA256 := "abc123", MIME := "image/png" }
      { URL := "https://example.com/test.png" } rfl rfl (by rfl) (by decide)
  have hsrc := hbase64 [77, 97, 110] (by decide) rfl (by decide)
  have hmime : src.MediaType = "image/png" := by
    rw [hmedia]
    decide
  refine ⟨src, hblock, ?_, hmime, ?_, ?_⟩
  · rw [hsrc]
  · rw [hsrc]
    show base64Encode [77, 97, 110] = "TWFu"
    decide
  · rw [hsrc]

/-- C14: a `tool-call` part with a meta map yields a block of type `tool_use` whose id
and name are `meta.id` and `meta.tool_name` when those are strings and empty otherwise.
Its input is `meta.arguments` itself when that is a string-keyed map, is the decoded map
when another non-nil value passes through `Marshal` and `Unmarshal`, and is absent when
that round trip does not produce a map; the block is emitted in every case. As the only
part of a message the block forms a one-element block array. -/
theorem C14_anthropic_tool_use (deps : Deps) (publicURLs : PublicURLs) (p : Part) (m : GoMap)
    (htype : p.Type_ = "tool-call") (hmeta : p.Meta = some m) :
    ∃ b : AnthropicContentBlock,
      AnthropicConverter.convertToolCallPart deps p = some b ∧
      (∀ acc, AnthropicConverter.convertPartsStep deps publicURLs acc p = acc ++ [b]) ∧
      AnthropicConverter.convertParts deps [p] publicURLs = AnthropicContent.blocks [b] ∧
      b.Type_ = "tool_use" ∧
      b.ID = (m.getString "id").getD "" ∧
      b.Name = (m.getString "tool_name").getD "" ∧
      (∀ args : GoMap, m.get "arguments" = some (Any.map args) → b.Input = some args) ∧
      (∀ (v : Any) (s : String) (decoded : GoMap), m.get "arguments" = some v →
        v.asMap = none → v.isNil = false → deps.marshal v = some s →
        deps.unmarshalMap s = some (some decoded) → b.Input = some decoded) ∧
      (∀ v : Any, m.get "arguments" = some v → v.asMap = none →
        (∀ s, deps.marshal v = some s →
          deps.unmarshalMap s = none ∨ deps.unmarshalMap s = some none) →
        b.Input = none) := by
  have hblock : AnthropicConverter.convertToolCallPart deps p =
      some { Type_ := "tool_use", ID := (m.getString "id").getD "",
             Name := (m.getString "tool_name").getD "",
             Input := AnthropicConverter.toolCallInput deps m } := by
    simp [AnthropicConverter.convertToolCallPart, hmeta]
  have hstep : ∀ acc, AnthropicConverter.convertPartsStep deps publicURLs acc p =
      acc ++ [{ Type_ := "tool_use", ID := (m.getString "id").getD "",
                Name := (m.getString "tool_name").getD "",
                Input := AnthropicConverter.toolCallInput deps m }] := by
    intro acc
    simp [AnthropicConverter.convertPartsStep, htype, hblock, AnthropicConverter.appendBlock]
  refine ⟨_, hblock, hstep, ?_, rfl, rfl, rfl, ?_, ?_, ?_⟩
  · have hbuild : AnthropicConverter.buildBlocks deps [p] publicURLs =
        [{ Type_ := "tool_use", ID := (m.getString "id").getD "",
           Name := (m.getString "tool_name").getD "",
           Input := AnthropicConverter.toolCallInput deps m }] := by
      rw [AnthropicConverter.buildBlocks_cons, hstep]
      rfl
    simp [AnthropicConverter.convertParts, htype, hbuild, AnthropicConverter.collapseBlocks]
  · intro args hargs
    simp [AnthropicConverter.toolCallInput, hargs, Any.asMap]
  · intro v s decoded hargs hmap hnil hser hdec
    simp [AnthropicConverter.toolCallInput, hargs, hmap, hnil, hser, hdec]
  · intro v hargs hmap hfail
    simp only [AnthropicConverter.toolCallInput, hargs, Option.bind_some]
    cases hnil : v.isNil
    · cases hser : deps.marshal v with
      | none => simp [hmap]
      | some s =>
        rcases hfail s hser with h | h <;> simp [h, hmap]
    · simp [hmap]

/-- C14 at the input of the tool-call tests: id `call_123`, name `get_weather`, arguments
with a location; the message content is the one-element array of that block. -/
theorem C14_anthropic_tool_use_witness :
    ∃ b : AnthropicContentBlock,
      AnthropicConverter.convertParts sampleDeps
          [{ Type_ := "tool-call",
             Meta := some [("id", Any.str "call_123"), ("tool_name", Any.str "get_weather"),
               ("arguments", Any.map [("location", Any.str "San Francisco")])] }] [] =
        AnthropicContent.blocks [b] ∧
      b.Type_ = "tool_use" ∧ b.ID = "call_123" ∧ b.Name = "get_weather" ∧
      b.Input = some [("location", Any.str "San Francisco")] := by
  obtain ⟨b, -, -, hcontent, htype, hid, hname, hinput, -⟩ :=
    C14_anthropic_tool_use sampleDeps []
      { Type_ := "tool-call",
        Meta := some [("id", Any.str "call_123"), ("tool_name", Any.str "get_weather"),
          ("arguments", Any.map [("location", Any.str "San Francisco")])] }
      [("id", Any.str "call_123"), ("tool_name", Any.str "get_weather"),
        ("arguments", Any.map [("location", Any.str "San Francisco")])] rfl rfl
  exact ⟨b, hcontent, htype, hid, hname, hinput _ (by rfl)⟩

/-- C15: a `tool-result` part with a meta map yields a block of type `tool_result` whose
`tool_use_id` is `meta.tool_call_id` when that is a string, else `meta.id` when that is a
string, else empty, and whose `is_error` is `meta.is_error` when that is a boolean and
false otherwise. -/
theorem C15_anthropic_tool_result_id (deps : Deps) (publicURLs : PublicURLs) (p : Part)
    (m : GoMap) (htype : p.Type_ = "tool-result") (hmeta : p.Meta = some m) :
    ∃ b : AnthropicContentBlock,
      AnthropicConverter.convertToolResultPart deps p = some b ∧
      (∀ acc, AnthropicConverter.convertPartsStep deps publicURLs acc p = acc ++ [b]) ∧
      b.Type_ = "tool_result" ∧
      (∀ id, m.getString "tool_call_id" = some id → b.ToolUseID = id) ∧
      (∀ id, m.getString "tool_call_id" = none → m.getString "id" = some id →
        b.ToolUseID = id) ∧
      (m.getString "tool_call_id" = none → m.getString "id" = none → b.ToolUseID = "") ∧
      (∀ flag, m.getBool "is_error" = some flag → b.IsError = flag) ∧
      (m.getBool "is_error" = none → b.IsError = false) := by
  cases hblock : AnthropicConverter.convertToolResultPart deps p with
  | none => simp [AnthropicConverter.convertToolResultPart, hmeta] at hblock
  | some b =>
    have hb := hblock
    simp only [AnthropicConverter.convertToolResultPart, hmeta, Option.some.injEq] at hb
    subst hb
    refine ⟨_, rfl, ?_, rfl, ?_, ?_, ?_, ?_, ?_⟩
    · intro acc
      simp [AnthropicConverter.convertPartsStep, htype, hblock, AnthropicConverter.appendBlock]
    · intro id h
      simp [h]
    · intro id h1 h2
      simp [h1, h2]
    · intro h1 h2
      simp [h1, h2]
    · intro flag h
      simp [h]
    · intro h
      simp [h]

/-- C15 at a concrete input: no `tool_call_id`, a string `id`, and an error flag. -/
theorem C15_anthropic_tool_result_id_witness :
    ∃ b : AnthropicContentBlock,
      AnthropicConverter.convertToolResultPart sampleDeps
          { Type_ := "tool-result",
            Meta := some [("id", Any.str "call_7"), ("is_error", Any.bool true)] } = some b ∧
      b.Type_ = "tool_result" ∧ b.ToolUseID = "call_7" ∧ b.IsError = true := by
  obtain ⟨b, hblock, -, htype, -, hid, -, herr, -⟩ :=
    C15_anthropic_tool_result_id sampleDeps []
      { Type_ := "tool-result",
        Meta := some [("id", Any.str "call_7"), ("is_error", Any.bool true)] }
      [("id", Any.str "call_7"), ("is_error", Any.bool true)] rfl rfl
  exact ⟨b, hblock, htype, hid "call_7" (by decide) (by decide), herr true (by decide)⟩

/-- C16, as stated, fails: when the chosen content is not a string and does not
serialize (here `meta.result` of an unsupported dynamic type) the block's content is
left nil, so it is not a string. -/
theorem C16_anthropic_tool_result_content_counterexample :
    sampleDeps.marshal (Any.other 0) = none ∧
    (AnthropicConverter.convertToolResultPart sampleDeps
        { Type_ := "tool-result",
          Meta := some [("tool_call_id", Any.str "call_123"), ("result", Any.other 0)] }).map
      (fun b => (b.Type_, b.ToolUseID, b.Content)) =
      some ("tool_result", "call_123", none) := by
  refine ⟨by decide, by decide⟩

/-- C16, amended: the content of the block of a `tool-result` part with a meta map is
chosen as `meta.result` if the key `result` is present, else the part's text if it is
not empty, else the whole meta map. A string choice is used verbatim; any other choice
is replaced by its JSON serialization when it serializes, and the content is left nil
when the serializer reports an error. -/
theorem C16_anthropic_tool_result_content (deps : Deps) (p : Part) (m : GoMap)
    (hmeta : p.Meta = some m) :
    ∃ (b : AnthropicContentBlock) (choice : Any),
      AnthropicConverter.convertToolResultPart deps p = some b ∧
      (∀ result, m.get "result" = some result → choice = result) ∧
      (m.get "result" = none → p.Text ≠ "" → choice = Any.str p.Text) ∧
      (m.get "result" = none → p.Text = "" → choice = Any.map m) ∧
      (∀ s, choice = Any.str s → b.Content = some s) ∧
      ((∀ s, choice ≠ Any.str s) → b.Content = deps.marshal choice) := by
  cases hblock : AnthropicConverter.convertToolResultPart deps p with
  | none => simp [AnthropicConverter.convertToolResultPart, hmeta] at hblock
  | some b =>
    have hb := hblock
    simp only [AnthropicConverter.convertToolResultPart, hmeta, Option.some.injEq] at hb
    subst hb
    refine ⟨_, AnthropicConverter.toolResultRaw p m, rfl, ?_, ?_, ?_, ?_, ?_⟩
    · intro result h
      simp [AnthropicConverter.toolResultRaw, h]
    · intro h ht
      simp [AnthropicConverter.toolResultRaw, h, ht]
    · intro h ht
      simp [AnthropicConverter.toolResultRaw, h, ht]
    · intro s h
      simp [h, Any.asString]
    · intro h
      cases hc : AnthropicConverter.toolResultRaw p m with
      | str s => exact absurd hc (h s)
      | _ => simp [Any.asString]

/-- C16 (amended) at the input of the tool-result tests: `tool_call_id` `call_123` and
the string result `The weather is sunny`. -/
theorem C16_anthropic_tool_result_content_witness :
    ∃ b : AnthropicContentBlock,
      AnthropicConverter.convertToolResultPart sampleDeps
          { Type_ := "tool-result",
            Meta := some [("tool_call_id", Any.str "call_123"),
              ("result", Any.str "The weather is sunny")] } = some b ∧
      b.Content = some "The weather is sunny" := by
  obtain ⟨b, choice, hblock, hresult, -, -, hstr, -⟩ :=
    C16_anthropic_tool_result_content sampleDeps
      { Type_ := "tool-result",
        Meta := some [("tool_call_id", Any.str "call_123"),
          ("result", Any.str "The weather is sunny")] }
      [("tool_call_id", Any.str "call_123"), ("result", Any.str "The weather is sunny")] rfl
  exact ⟨b, hblock, hstr _ (hresult _ (by rfl))⟩

/-- C17: a part of type `audio`, `video` or `file` adds to the slice of blocks a `text`
block whose text is the part's text followed by a line `[type: url]` when the asset hash
resolves to a URL (a lookup entry with a non-empty URL), a `text` block with just the
part's text when there is text and no such URL, and nothing exactly when the text is
empty and there is no such URL. -/
theorem C17_anthropic_media_degradation (deps : Deps) (publicURLs : PublicURLs)
    (acc : List AnthropicContentBlock) (p : Part)
    (htype : p.Type_ = "audio" ∨ p.Type_ = "video" ∨ p.Type_ = "file") :
    (∀ (a : Asset) (pubURL : PublicURL), p.Asset = some a →
      List.lookup a.SHA256 publicURLs = some pubURL → pubURL.URL ≠ "" →
      AnthropicConverter.convertPartsStep deps publicURLs acc p =
        acc ++ [{ Type_ := "text",
                  Text := p.Text ++ "\n[" ++ p.Type_ ++ ": " ++ pubURL.URL ++ "]" }]) ∧
    (AnthropicConverter.getAssetURL p.Asset publicURLs = "" → p.Text ≠ "" →
      AnthropicConverter.convertPartsStep deps publicURLs acc p =
        acc ++ [{ Type_ := "text", Text := p.Text }]) ∧
    (AnthropicConverter.convertPartsStep deps publicURLs acc p = acc ↔
      p.Text = "" ∧ AnthropicConverter.getAssetURL p.Asset publicURLs = "") ∧
    (AnthropicConverter.getAssetURL p.Asset publicURLs = "" ↔
      ¬ ∃ (a : Asset) (pubURL : PublicURL), p.Asset = some a ∧
        List.lookup a.SHA256 publicURLs = some pubURL ∧ pubURL.URL ≠ "") := by
  have h1 : p.Type_ ≠ "text" := by rcases htype with h | h | h <;> rw [h] <;> decide
  have h2 : p.Type_ ≠ "image" := by rcases htype with h | h | h <;> rw [h] <;> decide
  have h3 : p.Type_ ≠ "tool-call" := by rcases htype with h | h | h <;> rw [h] <;> decide
  have h4 : p.Type_ ≠ "tool-result" := by rcases htype with h | h | h <;> rw [h] <;> decide
  have hstep : AnthropicConverter.convertPartsStep deps publicURLs acc p =
      if (if AnthropicConverter.getAssetURL p.Asset publicURLs ≠ "" then
            p.Text ++ "\n[" ++ p.Type_ ++ ": " ++
              AnthropicConverter.getAssetURL p.Asset publicURLs ++ "]"
          else p.Text) ≠ "" then
        acc ++ [{ Type_ := "text",
                  Text := (if AnthropicConverter.getAssetURL p.Asset publicURLs ≠ "" then
                    p.Text ++ "\n[" ++ p.Type_ ++ ": " ++
                      AnthropicConverter.getAssetURL p.Asset publicURLs ++ "]"
                  else p.Text) }]
      else acc := by
    unfold AnthropicConverter.convertPartsStep
    simp only [h1, h2, h3, h4, htype, if_true, if_false]
  have hbracket : ∀ u : String, p.Text ++ "\n[" ++ p.Type_ ++ ": " ++ u ++ "]" ≠ "" := by
    intro u h
    have hlen := congrArg String.length h
    simp only [String.length_append] at hlen
    have hpos : 0 < "]".length := by decide
    have hzero : ("" : String).length = 0 := rfl
    omega
  refine ⟨?_, ?_, ?_, ?_⟩
  · intro a pubURL hasset hlookup hne
    have hurl : AnthropicConverter.getAssetURL p.Asset publicURLs = pubURL.URL := by
      rw [hasset]
      exact AnthropicConverter.getAssetURL_resolved a publicURLs pubURL hlookup
    rw [hstep, hurl]
    simp only [ne_eq, hne, not_false_eq_true, if_true, hbracket pubURL.URL]
  · intro hurl htext
    rw [hstep, hurl]
    simp [htext]
  · rw [hstep]
    by_cases hurl : AnthropicConverter.getAssetURL p.Asset publicURLs = ""
    · by_cases htext : p.Text = ""
      · simp [hurl, htext]
      · simp [hurl, htext]
    · simp only [ne_eq, hurl, not_false_eq_true, if_true, hbracket _, and_false, iff_false]
      simp
  · unfold AnthropicConverter.getAssetURL
    cases hasset : p.Asset with
    | none => simp
    | some a =>
      cases hlookup : List.lookup a.SHA256 publicURLs with
      | none => simp [hlookup]
      | some pubURL => simp [hlookup]

/-- C17 at a concrete input: a `file` part with text whose hash resolves. -/
theorem C17_anthropic_media_degradation_witness :
    AnthropicConverter.convertPartsStep sampleDeps
        [("f00d", { URL := "https://example.com/report.pdf" })] []
        { Type_ := "file", Text := "See the report",
          Asset := some { SHA256 := "f00d", MIME := "application/pdf" } } =
      [] ++ [{ Type_ := "text",
               Text := "See the report" ++ "\n[" ++ "file" ++ ": " ++
                 "https://example.com/report.pdf" ++ "]" }] :=
  (C17_anthropic_media_degradation sampleDeps
    [("f00d", { URL := "https://example.com/report.pdf" })] []
    { Type_ := "file", Text := "See the report",
      Asset := some { SHA256 := "f00d", MIME := "application/pdf" } }
    (Or.inr (Or.inr rfl))).1
    { SHA256 := "f00d", MIME := "application/pdf" }
    { URL := "https://example.com/report.pdf" } rfl (by rfl) (by decide)

/-- C18: `convertParts` never returns a block array that consists of exactly one block
of type `text`; whenever the loop leaves exactly one block and it is a `text` block, the
content is the bare string of that block's text. -/
theorem C18_anthropic_collapse (deps : Deps) (parts : List Part) (publicURLs : PublicURLs) :
    (∀ b, AnthropicConverter.convertParts deps parts publicURLs = AnthropicContent.blocks [b] →
      b.Type_ ≠ "text") ∧
    (∀ b, AnthropicConverter.buildBlocks deps parts publicURLs = [b] → b.Type_ = "text" →
      AnthropicConverter.convertParts deps parts publicURLs = AnthropicContent.text b.Text) := by
  by_cases hfast : ∃ p, parts = [p] ∧ p.Type_ = "text"
  · obtain ⟨p, rfl, htype⟩ := hfast
    have hcontent : AnthropicConverter.convertParts deps [p] publicURLs =
        AnthropicContent.text p.Text := by
      simp [AnthropicConverter.convertParts, htype]
    refine ⟨?_, ?_⟩
    · intro b hb
      rw [hcontent] at hb
      cases hb
    · intro b hbuild _
      rw [hcontent]
      have hb : AnthropicConverter.convertPartsStep deps publicURLs [] p = [b] := by
        rw [AnthropicConverter.buildBlocks_cons] at hbuild
        simpa [AnthropicConverter.buildBlocks] using hbuild
      by_cases htext : p.Text = ""
      · simp [AnthropicConverter.convertPartsStep, htype, htext] at hb
      · simp only [AnthropicConverter.convertPartsStep, htype, if_true, ne_eq, htext,
          not_false_eq_true, List.nil_append, List.cons.injEq, and_true] at hb
        rw [← hb]
  · have hslow : ∀ p, parts = [p] → p.Type_ ≠ "text" := fun p hp ht => hfast ⟨p, hp, ht⟩
    rw [AnthropicConverter.convertParts_eq_collapse deps parts publicURLs hslow]
    refine ⟨?_, ?_⟩
    · intro b hb htype
      match hbs : AnthropicConverter.buildBlocks deps parts publicURLs with
      | [] => simp [hbs, AnthropicConverter.collapseBlocks] at hb
      | [c] =>
        by_cases hc : c.Type_ = "text"
        · simp [hbs, AnthropicConverter.collapseBlocks, hc] at hb
        · simp only [hbs, AnthropicConverter.collapseBlocks, hc, if_false,
            AnthropicContent.blocks.injEq, List.cons.injEq, and_true] at hb
          exact hc (hb ▸ htype)
      | _ :: _ :: _ => simp [hbs, AnthropicConverter.collapseBlocks] at hb
    · intro b hbuild htype
      simp [hbuild, AnthropicConverter.collapseBlocks, htype]

/-- C18 at a concrete input: a text part followed by an image whose hash does not
resolve leaves one `text` block, and the content is its string. -/
theorem C18_anthropic_collapse_witness :
    AnthropicConverter.convertParts sampleDeps
        [{ Type_ := "text", Text := "Can you analyze this image?" },
         { Type_ := "image", Filename := "test.png",
           Asset := some { SHA256 := "abc123", MIME := "image/png" } }] [] =
      AnthropicContent.text "Can you analyze this image?" :=
  (C18_anthropic_collapse sampleDeps
    [{ Type_ := "text", Text := "Can you analyze this image?" },
     { Type_ := "image", Filename := "test.png",
       Asset := some { SHA256 := "abc123", MIME := "image/png" } }] []).2
    { Type_ := "text", Text := "Can you analyze this image?" } (by rfl) rfl

/-- C19: for any two behaviours of `http.Get`, with the other library calls unchanged,
the two outputs of `AnthropicConverter.Convert` have the same length, the same roles,
the same string contents, the same block types in the same order, and are equal once
the `Source` of every `image` block is blanked. -/
theorem C19_anthropic_fetch_independence (deps : Deps) (get1 get2 : String → HttpResult)
    (messages : List Message) (publicURLs : PublicURLs) :
    ∃ out1 out2,
      AnthropicConverter.Convert { deps with httpGet := get1 } messages publicURLs =
        Except.ok out1 ∧
      AnthropicConverter.Convert { deps with httpGet := get2 } messages publicURLs =
        Except.ok out2 ∧
      out1.length = out2.length ∧
      out1.map (fun m => m.Role) = out2.map (fun m => m.Role) ∧
      out1.map (fun m => m.Content.asText) = out2.map (fun m => m.Content.asText) ∧
      out1.map (fun m => m.Content.blockTypes) = out2.map (fun m => m.Content.blockTypes) ∧
      out1.map AnthropicMessage.withoutImageSources =
        out2.map AnthropicMessage.withoutImageSources := by
  refine ⟨_, _, AnthropicConverter.anthropic_Convert_eq _ messages publicURLs,
    AnthropicConverter.anthropic_Convert_eq _ messages publicURLs, ?_⟩
  have hblank : ∀ msg : Message,
      (AnthropicConverter.convertMessage { deps with httpGet := get1 } publicURLs
          msg).withoutImageSources =
        (AnthropicConverter.convertMessage { deps with httpGet := get2 } publicURLs
          msg).withoutImageSources :=
    fun msg => AnthropicConverter.convertMessage_withoutImageSources _ _ publicURLs msg rfl rfl
  have hrole : ∀ m : AnthropicMessage, m.Role = m.withoutImageSources.Role := fun _ => rfl
  have htext : ∀ m : AnthropicMessage,
      m.Content.asText = m.withoutImageSources.Content.asText := by
    intro m
    unfold AnthropicMessage.withoutImageSources
    cases m.Content <;> rfl
  have htypes : ∀ m : AnthropicMessage,
      m.Content.blockTypes = m.withoutImageSources.Content.blockTypes := by
    intro m
    unfold AnthropicMessage.withoutImageSources
    cases m.Content with
    | blocks bs =>
      simp [AnthropicContent.withoutImageSources, AnthropicContent.blockTypes,
        AnthropicConverter.withoutImageSource_Type]
    | _ => rfl
  refine ⟨by simp, ?_, ?_, ?_, ?_⟩
  · simp only [List.map_map]
    apply List.map_congr_left
    intro msg _
    simp only [Function.comp]
    rw [hrole, hblank, ← hrole]
  · simp only [List.map_map]
    apply List.map_congr_left
    intro msg _
    simp only [Function.comp]
    rw [htext, hblank, ← htext]
  · simp only [List.map_map]
    apply List.map_congr_left
    intro msg _
    simp only [Function.comp]
    rw [htypes, hblank, ← htypes]
  · simp only [List.map_map]
    apply List.map_congr_left
    intro msg _
    exact hblank msg

/-- C20: for every message list, every lookup (the nil lookup included) and every
behaviour of the library calls, `AnthropicConverter.Convert` and
`LangChainConverter.Convert` return a payload with a nil error. -/
theorem C20_convert_total (deps : Deps) (marshal : Any → Option String)
    (messages : List Message) (publicURLs : PublicURLs) :
    (∃ out, AnthropicConverter.Convert deps messages publicURLs = Except.ok out) ∧
    (∃ out, AnthropicConverter.Convert deps messages [] = Except.ok out) ∧
    (∃ out, LangChainConverter.Convert marshal messages publicURLs = Except.ok out) ∧
    (∃ out, LangChainConverter.Convert marshal messages [] = Except.ok out) :=
  ⟨⟨_, AnthropicConverter.anthropic_Convert_eq deps messages publicURLs⟩,
    ⟨_, AnthropicConverter.anthropic_Convert_eq deps messages []⟩,
    ⟨_, LangChainConverter.langchain_Convert_eq marshal messages publicURLs⟩,
    ⟨_, LangChainConverter.langchain_Convert_eq marshal messages []⟩⟩

/-- C21: `convertRole` is idempotent: mapping a role twice gives the same as mapping it
once. -/
theorem C21_anthropic_role_idempotent (r : String) :
    AnthropicConverter.convertRole (AnthropicConverter.convertRole r) =
      AnthropicConverter.convertRole r := by
  unfold AnthropicConverter.convertRole
  split_ifs <;> first | rfl | (exfalso; simp_all)

/-- C22: for a part list that does not take the single-text fast path, the content is
built from the slice of blocks of the loop; each part contributes no block or one block
to that slice, the slice is the sequence of these contributions in part order, and so
it has at most as many blocks as there are parts. -/
theorem C22_anthropic_block_order_bound (deps : Deps) (parts : List Part)
    (publicURLs : PublicURLs) (hslow : ∀ p, parts = [p] → p.Type_ ≠ "text") :
    AnthropicConverter.convertParts deps parts publicURLs =
      AnthropicConverter.collapseBlocks (AnthropicConverter.buildBlocks deps parts publicURLs) ∧
    (∀ p, (AnthropicConverter.convertPartsStep deps publicURLs [] p).length ≤ 1) ∧
    AnthropicConverter.buildBlocks deps parts publicURLs =
      parts.flatMap (AnthropicConverter.convertPartsStep deps publicURLs []) ∧
    AnthropicConverter.buildBlocks deps parts publicURLs =
      parts.filterMap (fun p => (AnthropicConverter.convertPartsStep deps publicURLs [] p).head?) ∧
    (AnthropicConverter.buildBlocks deps parts publicURLs).length ≤ parts.length ∧
    (∀ bs, AnthropicConverter.convertParts deps parts publicURLs = AnthropicContent.blocks bs →
      bs = AnthropicConverter.buildBlocks deps parts publicURLs ∧ bs.length ≤ parts.length) := by
  have hcontent := AnthropicConverter.convertParts_eq_collapse deps parts publicURLs hslow
  have hlen := AnthropicConverter.buildBlocks_length_le deps parts publicURLs
  refine ⟨hcontent, AnthropicConverter.convertPartsStep_length_le deps publicURLs,
    AnthropicConverter.buildBlocks_eq deps parts publicURLs, ?_, hlen, ?_⟩
  · rw [AnthropicConverter.buildBlocks_eq]
    exact AnthropicConverter.flatMap_eq_filterMap_head _
      (AnthropicConverter.convertPartsStep_length_le deps publicURLs) parts
  · intro bs hbs
    rw [hcontent] at hbs
    have heq : bs = AnthropicConverter.buildBlocks deps parts publicURLs := by
      unfold AnthropicConverter.collapseBlocks at hbs
      split at hbs
      · split_ifs at hbs
        exact (AnthropicContent.blocks.inj hbs).symm
      · exact (AnthropicContent.blocks.inj hbs).symm
    exact ⟨heq, heq ▸ hlen⟩

/-- C22 at a concrete input: an empty text part, a text part, an unresolved image and a
tool call give two blocks for four parts. -/
theorem C22_anthropic_block_order_bound_witness :
    (AnthropicConverter.buildBlocks sampleDeps
        [{ Type_ := "text", Text := "" },
         { Type_ := "text", Text := "Checking the weather" },
         { Type_ := "image", Asset := some { SHA256 := "abc123", MIME := "image/png" } },
         { Type_ := "tool-call", Meta := some [("id", Any.str "call_123")] }] []).length ≤
      [({ Type_ := "text", Text := "" } : Part),
         { Type_ := "text", Text := "Checking the weather" },
         { Type_ := "image", Asset := some { SHA256 := "abc123", MIME := "image/png" } },
         { Type_ := "tool-call", Meta := some [("id", Any.str "call_123")] }].length :=
  (C22_anthropic_block_order_bound sampleDeps
    [{ Type_ := "text", Text := "" },
     { Type_ := "text", Text := "Checking the weather" },
     { Type_ := "image", Asset := some { SHA256 := "abc123", MIME := "image/png" } },
     { Type_ := "tool-call", Meta := some [("id", Any.str "call_123")] }] []
    (by intro p hp; cases hp)).2.2.2.2.1

/-- C23: the message that `AnthropicConverter.Convert` returns for a message that is
not a `system` message has nil content if and only if the input message has no parts; with
at least one part the content is a string or a block array, which may be empty: a message
whose only part is an image that does not resolve gets the empty array. -/
theorem C23_anthropic_absent_content (deps : Deps) (publicURLs : PublicURLs) (msg : Message)
    (hrole : msg.Role ≠ "system") :
    ∃ m : AnthropicMessage,
      AnthropicConverter.Convert deps [msg] publicURLs = Except.ok [m] ∧
      (m.Content = AnthropicContent.absent ↔ msg.Parts = []) ∧
      (msg.Parts ≠ [] →
        (∃ s, m.Content = AnthropicContent.text s) ∨
          (∃ bs, m.Content = AnthropicContent.blocks bs)) ∧
      (∀ p, msg.Parts = [p] → p.Type_ = "image" →
        AnthropicConverter.getAssetURL p.Asset publicURLs = "" →
        m.Content = AnthropicContent.blocks []) := by
  refine ⟨AnthropicConverter.convertMessage deps publicURLs msg, ?_, ?_, ?_, ?_⟩
  · rw [AnthropicConverter.anthropic_Convert_eq]
    simp [AnthropicConverter.notSystem, hrole]
  · unfold AnthropicConverter.convertMessage
    cases hparts : msg.Parts with
    | nil => simp
    | cons p rest =>
      simp only [List.length_cons, Nat.zero_lt_succ, if_true, reduceCtorEq, iff_false]
      rcases AnthropicConverter.convertParts_ne_absent deps (p :: rest) publicURLs with
        ⟨s, hs⟩ | ⟨bs, hbs⟩
      · rw [hs]
        simp
      · rw [hbs]
        simp
  · intro hne
    have hlen : msg.Parts.length > 0 := List.length_pos.mpr hne
    unfold AnthropicConverter.convertMessage
    simp only [hlen, if_true]
    exact AnthropicConverter.convertParts_ne_absent deps msg.Parts publicURLs
  · intro p hparts htype hurl
    have hnt : p.Type_ ≠ "text" := by rw [htype]; decide
    have hnil := AnthropicConverter.convertImagePart_unresolved deps p publicURLs hurl
    have hbuild : AnthropicConverter.buildBlocks deps [p] publicURLs = [] := by
      rw [AnthropicConverter.buildBlocks_cons]
      simp [AnthropicConverter.convertPartsStep, htype, hnil, AnthropicConverter.appendBlock,
        AnthropicConverter.buildBlocks]
    unfold AnthropicConverter.convertMessage
    simp only [hparts, List.length_singleton, Nat.lt_one_iff, if_true, gt_iff_lt, Nat.zero_lt_one]
    rw [AnthropicConverter.convertParts_eq_collapse deps [p] publicURLs
      (fun q hq => by cases hq; exact hnt), hbuild]
    rfl

/-- C23 at a concrete input: a `user` message whose only part is an image with a hash
that is not in the lookup. -/
theorem C23_anthropic_absent_content_witness :
    ∃ m : AnthropicMessage,
      AnthropicConverter.Convert sampleDeps
          [{ Role := "user", Parts := [
              { Type_ := "image", Asset := some { SHA256 := "abc123", MIME := "image/png" } }] }]
          [] = Except.ok [m] ∧
      m.Content = AnthropicContent.blocks [] := by
  obtain ⟨m, hout, -, -, himage⟩ := C23_anthropic_absent_content sampleDeps []
    { Role := "user", Parts := [
        { Type_ := "image", Asset := some { SHA256 := "abc123", MIME := "image/png" } }] }
    (by decide)
  exact ⟨m, hout, himage _ rfl rfl rfl⟩

/-- C24: a `tool-call` or `tool-result` part whose meta map is nil adds no block to the
slice, whatever its text; with a meta map that is present, even an empty one, it adds
exactly one block, of type `tool_use` or `tool_result`. -/
theorem C24_anthropic_tool_without_meta (deps : Deps) (publicURLs : PublicURLs)
    (acc : List AnthropicContentBlock) (p : Part)
    (htype : p.Type_ = "tool-call" ∨ p.Type_ = "tool-result") :
    (p.Meta = none → AnthropicConverter.convertPartsStep deps publicURLs acc p = acc) ∧
    (∀ m, p.Meta = some m →
      ∃ b, AnthropicConverter.convertPartsStep deps publicURLs acc p = acc ++ [b] ∧
        b.Type_ = (if p.Type_ = "tool-call" then "tool_use" else "tool_result")) ∧
    (p.Meta = some [] →
      ∃ b, AnthropicConverter.convertPartsStep deps publicURLs acc p = acc ++ [b]) := by
  have hmain : ∀ m, p.Meta = some m →
      ∃ b, AnthropicConverter.convertPartsStep deps publicURLs acc p = acc ++ [b] ∧
        b.Type_ = (if p.Type_ = "tool-call" then "tool_use" else "tool_result") := by
    intro m hmeta
    rcases htype with h | h
    · cases hblock : AnthropicConverter.convertToolCallPart deps p with
      | none => simp [AnthropicConverter.convertToolCallPart, hmeta] at hblock
      | some b =>
        refine ⟨b, ?_, ?_⟩
        · simp [AnthropicConverter.convertPartsStep, h, hblock, AnthropicConverter.appendBlock]
        · simp only [AnthropicConverter.convertToolCallPart, hmeta, Option.some.injEq] at hblock
          subst hblock
          simp [h]
    · cases hblock : AnthropicConverter.convertToolResultPart deps p with
      | none => simp [AnthropicConverter.convertToolResultPart, hmeta] at hblock
      | some b =>
        refine ⟨b, ?_, ?_⟩
        · simp [AnthropicConverter.convertPartsStep, h, hblock, AnthropicConverter.appendBlock]
        · simp only [AnthropicConverter.convertToolResultPart, hmeta, Option.some.injEq] at hblock
          subst hblock
          simp [h]
  refine ⟨?_, hmain, ?_⟩
  · intro hmeta
    rcases htype with h | h
    · simp [AnthropicConverter.convertPartsStep, h, AnthropicConverter.convertToolCallPart,
        hmeta, AnthropicConverter.appendBlock]
    · simp [AnthropicConverter.convertPartsStep, h, AnthropicConverter.convertToolResultPart,
        hmeta, AnthropicConverter.appendBlock]
  · intro hmeta
    obtain ⟨b, hb, -⟩ := hmain [] hmeta
    exact ⟨b, hb⟩

/-- C24 at a concrete input: a `tool-result` part with text and a nil meta map adds
nothing to a slice that holds one text block. -/
theorem C24_anthropic_tool_without_meta_witness :
    AnthropicConverter.convertPartsStep sampleDeps []
        [{ Type_ := "text", Text := "before" }]
        { Type_ := "tool-result", Text := "The weather is sunny" } =
      [{ Type_ := "text", Text := "before" }] :=
  (C24_anthropic_tool_without_meta sampleDeps [] [{ Type_ := "text", Text := "before" }]
    { Type_ := "tool-result", Text := "The weather is sunny" } (Or.inr rfl)).1 rfl

/-- C25: a part whose type is none of `text`, `image`, `tool-call`, `tool-result`,
`audio`, `video` and `file` adds a `text` block that carries only the part's text when
the text is not empty, and nothing otherwise; what it adds does not depend on its meta
map. -/
theorem C25_anthropic_other_types (deps : Deps) (publicURLs : PublicURLs)
    (acc : List AnthropicContentBlock) (p : Part)
    (h1 : p.Type_ ≠ "text") (h2 : p.Type_ ≠ "image") (h3 : p.Type_ ≠ "tool-call")
    (h4 : p.Type_ ≠ "tool-result") (h5 : p.Type_ ≠ "audio") (h6 : p.Type_ ≠ "video")
    (h7 : p.Type_ ≠ "file") :
    (p.Text ≠ "" → AnthropicConverter.convertPartsStep deps publicURLs acc p =
      acc ++ [{ Type_ := "text", Text := p.Text }]) ∧
    (p.Text = "" → AnthropicConverter.convertPartsStep deps publicURLs acc p = acc) ∧
    (∀ other : Option GoMap,
      AnthropicConverter.convertPartsStep deps publicURLs acc { p with Meta := other } =
        AnthropicConverter.convertPartsStep deps publicURLs acc p) := by
  refine ⟨?_, ?_, ?_⟩
  · intro htext
    simp [AnthropicConverter.convertPartsStep, h1, h2, h3, h4, h5, h6, h7, htext]
  · intro htext
    simp [AnthropicConverter.convertPartsStep, h1, h2, h3, h4, h5, h6, h7, htext]
  · intro other
    simp [AnthropicConverter.convertPartsStep, h1, h2, h3, h4, h5, h6, h7]

/-- C25 at a concrete input: a `data` part with text and a meta map. -/
theorem C25_anthropic_other_types_witness :
    AnthropicConverter.convertPartsStep sampleDeps [] []
        { Type_ := "data", Text := "rows: 3", Meta := some [("rows", Any.num 3)] } =
      [] ++ [{ Type_ := "text", Text := "rows: 3" }] :=
  (C25_anthropic_other_types sampleDeps [] []
    { Type_ := "data", Text := "rows: 3", Meta := some [("rows", Any.num 3)] }
    (by decide) (by decide) (by decide) (by decide) (by decide) (by decide) (by decide)).1
    (by decide)

end Acontext
